import Mathlib

/-!
# Verification of the md2hwpx renderer (`src/md2hwpx/renderer.py`,
`src/md2hwpx/style_manager.py`)

Shallow embedding of the HWPX renderer pipeline: the AST produced by the
markdown parser, the style registry that deduplicates font/paragraph
specifications and assigns dense numeric IDs, the node renderers that turn
AST nodes into `hp:p` fragments carrying `paraPrIDRef`/`charPrIDRef`
references, and the archive packager that assembles the fixed-order ZIP
entry list (mimetype first, stored uncompressed).

Python floats appearing in the specifications are exact small decimals and
are modelled as rationals; machine integers do not overflow in this code
and are modelled as `Int`/`Nat`.
-/

set_option maxHeartbeats 1600000

namespace Md2Hwpx

/-- `NodeType` enum from `parser.py`. -/
inductive NodeType where
  | document | heading | paragraph | text | bold | italic | strikethrough
  | inline_code | code_block | ordered_list | unordered_list | list_item
  | table | table_row | table_cell | blockquote | horizontal_rule
  | link | image | footnote_ref | footnote_def | task_list_item
  | line_break | soft_break
deriving DecidableEq, Repr

/-- The non-recursive attribute fields of `ASTNode` (`parser.py`,
dataclass `ASTNode`), with the dataclass defaults. -/
structure NodeAttrs where
  text : String := ""
  level : Int := 0
  language : String := ""
  url : String := ""
  title : String := ""
  alt : String := ""
  align : String := ""
  is_header : Bool := false
  checked : Bool := false
  footnote_id : String := ""
  start : Int := 1
deriving DecidableEq, Repr

/-- `ASTNode`: a node type, its attribute fields and an ordered list of
children. -/
inductive ASTNode where
  | mk (ty : NodeType) (attrs : NodeAttrs) (children : List ASTNode)
deriving Repr

def ASTNode.ty : ASTNode → NodeType
  | .mk t _ _ => t

def ASTNode.attrs : ASTNode → NodeAttrs
  | .mk _ a _ => a

def ASTNode.children : ASTNode → List ASTNode
  | .mk _ _ c => c

/-- `FontSpec` (`style_manager.py`): font specification for a text run.
Point sizes are exact decimals in the source and are modelled as `Rat`. -/
structure FontSpec where
  hangul : String := "맑은 고딕"
  latin : String := "Times New Roman"
  size_pt : Rat := 10
  bold : Bool := false
  italic : Bool := false
  underline : Bool := false
  strikethrough : Bool := false
  color : String := "#000000"
  background : String := ""
deriving DecidableEq, Repr

/-- `ParaSpec` (`style_manager.py`): paragraph layout specification. -/
structure ParaSpec where
  align : String := "both"
  indent_pt : Rat := 0
  left_margin_pt : Rat := 0
  right_margin_pt : Rat := 0
  line_spacing_percent : Int := 160
  space_before_pt : Rat := 0
  space_after_pt : Rat := 6
deriving DecidableEq, Repr

/-- `StyleDef` (`style_manager.py`): a named (font, paragraph) pair. -/
structure StyleDef where
  name : String
  font : FontSpec
  para : ParaSpec
deriving DecidableEq, Repr

/-- Style lookup as seen from the renderer: `StyleManager.get_style` is a
total function from semantic names to style definitions (it falls back to
the `body` style internally for unknown names). -/
def StyleMap := String → StyleDef

/-- Python string truthiness fallback `a or b` for strings. -/
def pyOr (a b : String) : String := if a = "" then b else a

mutual
/-- `_extract_plain_text` (`renderer.py`): recursively concatenate the
literal text of a subtree. -/
def extractPlainText : ASTNode → String
  | .mk _ attrs children => attrs.text ++ extractPlainTextList children

def extractPlainTextList : List ASTNode → String
  | [] => ""
  | n :: ns => extractPlainText n ++ extractPlainTextList ns
end

/-- `_StyleRegistry` (`renderer.py`): ordered lists of registered font
names, character specs and paragraph specs.  The Python dict keys
(`_font_idx`, `_char_map`, `_para_map`) are the full field tuples of the
entries, i.e. exactly value equality of the list entries, so lookup is
modelled as a first-index search over the lists. -/
structure Registry where
  fonts : List String := []
  charList : List FontSpec := []
  paraList : List ParaSpec := []
deriving DecidableEq, Repr

/-- `_StyleRegistry.register_font_name`. -/
def registerFontName (r : Registry) (name : String) : Nat × Registry :=
  match r.fonts.findIdx? (· = name) with
  | some i => (i, r)
  | none => (r.fonts.length, { r with fonts := r.fonts ++ [name] })

/-- `_StyleRegistry.register_char`: the dedup key is the tuple of all nine
`FontSpec` fields, i.e. full equality.  A fresh registration also registers
the two font names. -/
def registerChar (r : Registry) (f : FontSpec) : Nat × Registry :=
  match r.charList.findIdx? (· = f) with
  | some i => (i, r)
  | none =>
    let cid := r.charList.length
    let r1 := { r with charList := r.charList ++ [f] }
    let r2 := (registerFontName r1 f.hangul).2
    let r3 := (registerFontName r2 f.latin).2
    (cid, r3)

/-- `_StyleRegistry.register_para`: the dedup key is the tuple of all seven
`ParaSpec` fields, i.e. full equality. -/
def registerPara (r : Registry) (p : ParaSpec) : Nat × Registry :=
  match r.paraList.findIdx? (· = p) with
  | some i => (i, r)
  | none => (r.paraList.length, { r with paraList := r.paraList ++ [p] })

/-- The renderer's per-render mutable state: `_para_id`, `_preview_lines`
and `_registry`. -/
structure RState where
  paraId : Nat := 0
  preview : List String := []
  reg : Registry := {}
deriving DecidableEq, Repr

/-- One `hp:run` inside an `hp:p`: its `charPrIDRef` and text.  `fontG`
records the `FontSpec` the ID was registered for (ghost data used to state
cross-reference integrity). -/
structure RunE where
  charPr : Nat
  fontG : FontSpec
  text : String
deriving DecidableEq, Repr

/-- An `hp:p` element as built by `_make_paragraph`: `id`, `paraPrIDRef`
and runs.  `paraSpecG` records the `ParaSpec` the ID was registered for. -/
structure BasePara where
  id : Nat
  paraPr : Nat
  paraSpecG : ParaSpec
  runs : List RunE
deriving DecidableEq, Repr

/-- One `hp:tc` cell of a rendered table: its `cellAddr`, header flag,
`cellSz` width, and the single paragraph in its `subList`. -/
structure CellModel where
  colAddr : Nat
  rowAddr : Nat
  is_header : Bool
  width : Int
  para : BasePara
deriving DecidableEq, Repr

/-- The `hp:tbl` element built by `_render_table` (ID-bearing fields and
geometry). -/
structure TblModel where
  tblId : Nat
  rowCnt : Nat
  colCnt : Nat
  width : Int
  colWidth : Int
  rows : List (List CellModel)
deriving DecidableEq, Repr

/-- A content fragment: an `hp:p` element, optionally wrapping an `hp:tbl`
(the table wrap paragraph built at the end of `_render_table`). -/
structure PElem where
  id : Nat
  paraPr : Nat
  paraSpecG : ParaSpec
  runs : List RunE
  tbl : Option TblModel := none
deriving DecidableEq, Repr

def BasePara.toPElem (p : BasePara) : PElem :=
  { id := p.id, paraPr := p.paraPr, paraSpecG := p.paraSpecG,
    runs := p.runs, tbl := none }

/-- The run loop of `_make_paragraph`: empty-text runs are skipped
(before any registration); each kept run registers its font. -/
def buildRuns (r : Registry) : List (String × FontSpec) → List RunE × Registry
  | [] => ([], r)
  | (t, f) :: rest =>
    if t = "" then buildRuns r rest
    else
      let (cid, r1) := registerChar r f
      let (res, r2) := buildRuns r1 rest
      ({ charPr := cid, fontG := f, text := t } :: res, r2)

/-- `HwpxRenderer._make_paragraph`: increment `_para_id`, register the
paragraph spec, then build the runs. -/
def makeParagraph (st : RState) (runs : List (String × FontSpec))
    (spec : ParaSpec) : BasePara × RState :=
  let paraId := st.paraId + 1
  let (pid, r1) := registerPara st.reg spec
  let (runsE, r2) := buildRuns r1 runs
  ({ id := paraId, paraPr := pid, paraSpecG := spec, runs := runsE },
   { st with paraId := paraId, reg := r2 })

mutual
/-- `HwpxRenderer._collect_inline_runs` / `_collect_inline_child`:
pure collection of (text, font) runs; the only style lookup is
`get_inline_code_font` = `get_style("inline_code").font`. -/
def collectInlineRuns (sm : StyleMap) (base : FontSpec) (n : ASTNode) :
    List (String × FontSpec) :=
  match n with
  | .mk _ attrs [] =>
    if attrs.text ≠ "" then [(attrs.text, base)] else []
  | .mk _ _ children => collectInlineList sm base children
termination_by (sizeOf n, 0)

def collectInlineList (sm : StyleMap) (base : FontSpec)
    (ns : List ASTNode) : List (String × FontSpec) :=
  match ns with
  | [] => []
  | n :: rest => collectInlineChild sm base n ++ collectInlineList sm base rest
termination_by (sizeOf ns, 2)

def collectInlineChild (sm : StyleMap) (base : FontSpec) (n : ASTNode) :
    List (String × FontSpec) :=
    match n.ty with
    | .text =>
      let t := if n.attrs.text = "" then
                 match n.children with
                 | [] => n.attrs.text
                 | _ => extractPlainText n
               else n.attrs.text
      if t = "" then [] else [(t, base)]
    | .bold => collectInlineRuns sm { base with bold := true } n
    | .italic => collectInlineRuns sm { base with italic := true } n
    | .strikethrough =>
      collectInlineRuns sm { base with strikethrough := true } n
    | .inline_code =>
      let codeFont := (sm "inline_code").font
      let t := pyOr n.attrs.text (extractPlainText n)
      if t = "" then [] else [(t, codeFont)]
    | .link =>
      collectInlineRuns sm
        { base with underline := true, color := "#0563C1" } n
    | .image =>
      let alt := pyOr n.attrs.alt (pyOr n.attrs.title "image")
      [("[Image: " ++ alt ++ "]",
        { base with italic := true, color := "#666666" })]
    | .footnote_ref =>
      [("[" ++ n.attrs.footnote_id ++ "]",
        { base with size_pt := 7, color := "#0000FF" })]
    | .line_break => [("\n", base)]
    | .soft_break => [(" ", base)]
    | _ =>
      let t := extractPlainText n
      if t = "" then [] else [(t, base)]
termination_by (sizeOf n, 1)
end

/-- A4 page width in HWPUNIT (`_A4_WIDTH`). -/
def A4_WIDTH : Int := 59528
/-- Left page margin in HWPUNIT (`_MARGIN_LEFT`). -/
def MARGIN_LEFT : Int := 8504
/-- Right page margin in HWPUNIT (`_MARGIN_RIGHT`). -/
def MARGIN_RIGHT : Int := 8504

/-- Usable page width: `_A4_WIDTH - _MARGIN_LEFT - _MARGIN_RIGHT` (42520). -/
def pageContentWidth : Int := A4_WIDTH - MARGIN_LEFT - MARGIN_RIGHT

/-- String repetition, Python `s * k`. -/
def repeatStr (s : String) : Nat → String
  | 0 => ""
  | k + 1 => s ++ repeatStr s k

/-- The three rotating bullet glyphs of `_render_single_list_item`. -/
def bulletGlyphs : List String := ["•", "◦", "▪"]

/-- `HwpxRenderer._render_heading`. -/
def renderHeading (sm : StyleMap) (st : RState) (n : ASTNode) :
    List PElem × RState :=
  let lvl := max 1 (min 6 n.attrs.level)
  let style := sm ("heading_" ++ toString lvl)
  let runs := collectInlineRuns sm style.font n
  let (p, st1) := makeParagraph st runs style.para
  let text := extractPlainText n
  ([p.toPElem], { st1 with preview := st1.preview ++ [text] })

/-- `HwpxRenderer._render_paragraph`. -/
def renderParagraph (sm : StyleMap) (st : RState) (n : ASTNode) :
    List PElem × RState :=
  let style := sm "body"
  let runs := collectInlineRuns sm style.font n
  if runs = [] then ([], st)
  else
    let (p, st1) := makeParagraph st runs style.para
    let text := extractPlainText n
    let st2 := if text.trim ≠ ""
               then { st1 with preview := st1.preview ++ [text] } else st1
    ([p.toPElem], st2)

/-- `HwpxRenderer._render_text`. -/
def renderText (sm : StyleMap) (st : RState) (n : ASTNode) :
    List PElem × RState :=
  if n.attrs.text = "" then ([], st)
  else
    let style := sm "body"
    let (p, st1) := makeParagraph st [(n.attrs.text, style.font)] style.para
    ([p.toPElem], { st1 with preview := st1.preview ++ [n.attrs.text] })

/-- `HwpxRenderer._render_bold` / `_render_italic` / `_render_strikethrough`
share this shape: derive the body font, collect, emit unless empty. -/
def renderEmphBlock (sm : StyleMap) (st : RState) (n : ASTNode)
    (font : FontSpec) : List PElem × RState :=
  let style := sm "body"
  let runs := collectInlineRuns sm font n
  if runs = [] then ([], st)
  else
    let (p, st1) := makeParagraph st runs style.para
    ([p.toPElem], st1)

/-- `HwpxRenderer._render_inline_code` (block position). -/
def renderInlineCodeBlock (sm : StyleMap) (st : RState) (n : ASTNode) :
    List PElem × RState :=
  let style := sm "body"
  let codeFont := (sm "inline_code").font
  let text := pyOr n.attrs.text (extractPlainText n)
  if text = "" then ([], st)
  else
    let (p, st1) := makeParagraph st [(text, codeFont)] style.para
    ([p.toPElem], st1)

/-- The per-line loop of `_render_code_block`. -/
def codeBlockLines (style : StyleDef) (st : RState) :
    List String → List PElem × RState
  | [] => ([], st)
  | line :: rest =>
    let display := if line = "" then " " else line
    let (p, st1) := makeParagraph st [(display, style.font)] style.para
    let (ps, st2) := codeBlockLines style st1 rest
    (p.toPElem :: ps, st2)

/-- `HwpxRenderer._render_code_block`: one paragraph per line (trailing
empty line from a final newline dropped, empty lines become a single
space), plus a `[Code: ...]` preview entry. -/
def renderCodeBlock (sm : StyleMap) (st : RState) (n : ASTNode) :
    List PElem × RState :=
  let style := sm "code_block"
  let text := n.attrs.text
  let lines0 := text.splitOn "\n"
  let lines := if lines0.getLast? = some "" then lines0.dropLast else lines0
  let (els, st1) := codeBlockLines style st lines
  let preview := (text.take 200).replace "\n" " "
  (els, { st1 with preview := st1.preview ++ ["[Code: " ++ preview ++ "]"] })

/-- `HwpxRenderer._render_horizontal_rule`. -/
def renderHorizontalRule (sm : StyleMap) (st : RState) :
    List PElem × RState :=
  let style := sm "horizontal_rule"
  let hrText := repeatStr "─" 40
  let (p, st1) := makeParagraph st [(hrText, style.font)]
    { style.para with align := "center" }
  ([p.toPElem], { st1 with preview := st1.preview ++ ["---"] })

/-- `HwpxRenderer._render_image` (block position): falls back through
alt, title, url to the literal `"image"`. -/
def renderImageBlock (sm : StyleMap) (st : RState) (n : ASTNode) :
    List PElem × RState :=
  let alt := pyOr n.attrs.alt (pyOr n.attrs.title (pyOr n.attrs.url "image"))
  let ph := "[Image: " ++ alt ++ "]"
  let style := sm "body"
  let font := { style.font with italic := true, color := "#666666" }
  let (p, st1) := makeParagraph st [(ph, font)] style.para
  ([p.toPElem], { st1 with preview := st1.preview ++ [ph] })

/-- `HwpxRenderer._render_link`. -/
def renderLinkBlock (sm : StyleMap) (st : RState) (n : ASTNode) :
    List PElem × RState :=
  let style := sm "body"
  let linkFont := { style.font with underline := true, color := "#0563C1" }
  let runs0 := collectInlineRuns sm linkFont n
  let runs1 :=
    if n.attrs.url ≠ "" then
      runs0 ++ [(" (" ++ n.attrs.url ++ ")",
                 { style.font with color := "#666666", size_pt := 8 })]
    else runs0
  let runs := if runs1 = [] then [(n.attrs.url, linkFont)] else runs1
  let (p, st1) := makeParagraph st runs style.para
  ([p.toPElem], st1)

/-- `HwpxRenderer._render_footnote_ref` (block position). -/
def renderFootnoteRefBlock (sm : StyleMap) (st : RState) (n : ASTNode) :
    List PElem × RState :=
  let style := sm "body"
  let refText := "[" ++ n.attrs.footnote_id ++ "]"
  let font := { style.font with size_pt := 7, color := "#0000FF" }
  let (p, st1) := makeParagraph st [(refText, font)] style.para
  ([p.toPElem], st1)

/-- The indexed child loop of `_render_footnote_def`: the first child's
first run is prefixed (or a label-only run is synthesized); children whose
run list stays empty are skipped. -/
def fnDefChildren (sm : StyleMap) (style : StyleDef) (pfx : String)
    (st : RState) (idx : Nat) : List ASTNode → List PElem × RState
  | [] => ([], st)
  | c :: rest =>
    let runs0 := collectInlineRuns sm style.font c
    let runs :=
      if idx = 0 then
        match runs0 with
        | (t, f) :: more => (pfx ++ t, f) :: more
        | [] => [(pfx, style.font)]
      else runs0
    if runs = [] then fnDefChildren sm style pfx st (idx + 1) rest
    else
      let (p, st1) := makeParagraph st runs style.para
      let (ps, st2) := fnDefChildren sm style pfx st1 (idx + 1) rest
      (p.toPElem :: ps, st2)

/-- `HwpxRenderer._render_footnote_def`. -/
def renderFootnoteDef (sm : StyleMap) (st : RState) (n : ASTNode) :
    List PElem × RState :=
  let style := sm "footnote"
  let pfx := "[" ++ n.attrs.footnote_id ++ "] "
  let (els0, st1) := fnDefChildren sm style pfx st 0 n.children
  let (els, st2) :=
    if els0 = [] then
      let (p, st') := makeParagraph st1 [(pfx, style.font)] style.para
      ([p.toPElem], st')
    else (els0, st1)
  let text := extractPlainText n
  (els, { st2 with preview := st2.preview ++
    ["  [" ++ n.attrs.footnote_id ++ "] " ++ text.trim.take 80] })

/-- The per-cell loop of `_render_table` for one `hp:tr` row. -/
def buildTableCells (sm : StyleMap) (rowIdx : Nat) (colWidth : Int)
    (st : RState) (colIdx : Nat) : List ASTNode → List CellModel × RState
  | [] => ([], st)
  | cell :: rest =>
    let cellStyle := sm (if cell.attrs.is_header then "table_header"
                         else "table_body")
    let cellPara := if cell.attrs.align ≠ ""
                    then { cellStyle.para with align := cell.attrs.align }
                    else cellStyle.para
    let runs0 := collectInlineRuns sm cellStyle.font cell
    let runs := if runs0 = [] then [(" ", cellStyle.font)] else runs0
    let (p, st1) := makeParagraph st runs cellPara
    let cm : CellModel :=
      { colAddr := colIdx, rowAddr := rowIdx,
        is_header := cell.attrs.is_header, width := colWidth, para := p }
    let (cms, st2) := buildTableCells sm rowIdx colWidth st1 (colIdx + 1) rest
    (cm :: cms, st2)

/-- The per-row loop of `_render_table`. -/
def buildTableRows (sm : StyleMap) (colWidth : Int) (st : RState)
    (rowIdx : Nat) : List ASTNode → List (List CellModel) × RState
  | [] => ([], st)
  | row :: rest =>
    let (cells, st1) := buildTableCells sm rowIdx colWidth st 0 row.children
    let (rows, st2) := buildTableRows sm colWidth st1 (rowIdx + 1) rest
    (cells :: rows, st2)

/-- The body of `_render_table` once the column count has been computed
from the first row: the column width is the usable page width
integer-divided by the column count, the cells are rendered, the table is
wrapped in a body paragraph with a single-space run, and one `"[Table]"`
preview line is appended. -/
def renderTableBody (sm : StyleMap) (st : RState) (rows : List ASTNode)
    (numCols : Nat) : List PElem × RState :=
  let numRows := rows.length
  let colWidth : Int := pageContentWidth / (numCols : Int)
  let tblId := st.paraId + 1000
  let (cellRows, st1) := buildTableRows sm colWidth st 0 rows
  let st2 := { st1 with paraId := st1.paraId + 1 }
  let bodyStyle := sm "body"
  let (wrapParaPr, reg1) := registerPara st2.reg bodyStyle.para
  let (wrapCharPr, reg2) := registerChar reg1 bodyStyle.font
  let st3 := { st2 with reg := reg2 }
  let tbl : TblModel :=
    { tblId := tblId, rowCnt := numRows, colCnt := numCols,
      width := pageContentWidth, colWidth := colWidth, rows := cellRows }
  let p : PElem :=
    { id := st2.paraId, paraPr := wrapParaPr, paraSpecG := bodyStyle.para,
      runs := [{ charPr := wrapCharPr, fontG := bodyStyle.font, text := " " }],
      tbl := some tbl }
  ([p], { st3 with preview := st3.preview ++ ["[Table]"] })

/-- `HwpxRenderer._render_table`: an empty table returns nothing (before
the preview append); otherwise the column count is the number of cells in
the first row, or 1 when the first row has no cells. -/
def renderTable (sm : StyleMap) (st : RState) (n : ASTNode) :
    List PElem × RState :=
  match n.children with
  | [] => ([], st)
  | firstRow :: _ =>
    renderTableBody sm st n.children
      (if firstRow.children.length = 0 then 1 else firstRow.children.length)

/-- The tail of `_render_single_list_item` after the child loop: prepend
the prefix to the first inline run (or synthesize a right-stripped
prefix-only run), build the item's own paragraph, emit it followed by the
nested fragments, and append the preview line `pline`. -/
def finishListItem (style : StyleDef) (paraSpec : ParaSpec) (pfx : String)
    (pline : String) (st1 : RState)
    (inlineRuns : List (String × FontSpec)) (nested : List PElem) :
    List PElem × RState :=
  let runs :=
    match inlineRuns with
    | (t, f) :: more => (pfx ++ t, f) :: more
    | [] => [(pfx.trimRight, style.font)]
  let (p, st2) := makeParagraph st1 runs paraSpec
  (p.toPElem :: nested, { st2 with preview := st2.preview ++ [pline] })

mutual
/-- `HwpxRenderer._render_node`: dispatch by node type.  Every `NodeType`
has a handler in the source, so the dispatch is total. -/
def renderNode (sm : StyleMap) (st : RState) (n : ASTNode) :
    List PElem × RState :=
  match n with
  | .mk ty attrs children =>
    match ty with
    | .document => renderNodes sm st children
    | .heading => renderHeading sm st (.mk .heading attrs children)
    | .paragraph => renderParagraph sm st (.mk .paragraph attrs children)
    | .text => renderText sm st (.mk .text attrs children)
    | .bold =>
      renderEmphBlock sm st (.mk .bold attrs children)
        { (sm "body").font with bold := true }
    | .italic =>
      renderEmphBlock sm st (.mk .italic attrs children)
        { (sm "body").font with italic := true }
    | .strikethrough =>
      renderEmphBlock sm st (.mk .strikethrough attrs children)
        { (sm "body").font with strikethrough := true }
    | .inline_code => renderInlineCodeBlock sm st (.mk .inline_code attrs children)
    | .code_block => renderCodeBlock sm st (.mk .code_block attrs children)
    | .blockquote =>
      let style := sm "blockquote"
      let (els, st1) := renderBQChildren sm style st children
      let text := extractPlainText (.mk .blockquote attrs children)
      let st2 := if text.trim ≠ ""
                 then { st1 with preview :=
                          st1.preview ++ ["> " ++ text.trim.take 120] }
                 else st1
      (els, st2)
    | .horizontal_rule => renderHorizontalRule sm st
    | .ordered_list =>
      renderListItems sm (sm "list_item") true attrs.start 0 st children
    | .unordered_list =>
      renderListItems sm (sm "list_item") false 0 0 st children
    | .list_item =>
      renderSingleListItem sm (sm "list_item") false 0 0 st
        (.mk .list_item attrs children)
    | .task_list_item =>
      renderSingleListItem sm (sm "list_item") false 0 0 st
        (.mk .task_list_item attrs children)
    | .table => renderTable sm st (.mk .table attrs children)
    | .table_row => ([], st)
    | .table_cell => ([], st)
    | .image => renderImageBlock sm st (.mk .image attrs children)
    | .link => renderLinkBlock sm st (.mk .link attrs children)
    | .footnote_ref => renderFootnoteRefBlock sm st (.mk .footnote_ref attrs children)
    | .footnote_def => renderFootnoteDef sm st (.mk .footnote_def attrs children)
    | .line_break => ([], st)
    | .soft_break => ([], st)
termination_by (sizeOf n, 1)

/-- `HwpxRenderer._render_document` / the top-level child loop of
`render`: concatenate the fragments of each child in order. -/
def renderNodes (sm : StyleMap) (st : RState) (ns : List ASTNode) :
    List PElem × RState :=
  match ns with
  | [] => ([], st)
  | n :: rest =>
    let (els1, st1) := renderNode sm st n
    let (els2, st2) := renderNodes sm st1 rest
    (els1 ++ els2, st2)
termination_by (sizeOf ns, 0)

/-- The child loop of `_render_blockquote`: paragraph children are
collected with the blockquote style and skipped when their run list is
empty; other children recurse through normal dispatch. -/
def renderBQChildren (sm : StyleMap) (style : StyleDef) (st : RState)
    (ns : List ASTNode) : List PElem × RState :=
  match ns with
  | [] => ([], st)
  | c :: rest =>
    if c.ty = .paragraph then
      let runs := collectInlineRuns sm style.font c
      if runs = [] then renderBQChildren sm style st rest
      else
        let (p, st1) := makeParagraph st runs style.para
        let (els, st2) := renderBQChildren sm style st1 rest
        (p.toPElem :: els, st2)
    else
      let (els1, st1) := renderNode sm st c
      let (els2, st2) := renderBQChildren sm style st1 rest
      (els1 ++ els2, st2)
termination_by (sizeOf ns, 0)

/-- The item loops of `_render_list_block` and `_render_nested_list`:
render each item, incrementing the counter for ordered lists. -/
def renderListItems (sm : StyleMap) (style : StyleDef) (ordered : Bool)
    (counter : Int) (depth : Nat) (st : RState) (ns : List ASTNode) :
    List PElem × RState :=
  match ns with
  | [] => ([], st)
  | item :: rest =>
    let (els1, st1) :=
      renderSingleListItem sm style ordered counter depth st item
    let counter' := if ordered then counter + 1 else counter
    let (els2, st2) :=
      renderListItems sm style ordered counter' depth st1 rest
    (els1 ++ els2, st2)
termination_by (sizeOf ns, 0)

/-- `HwpxRenderer._render_single_list_item`: compute the item prefix,
collect inline content and nested output, then finish via
`finishListItem`. -/
def renderSingleListItem (sm : StyleMap) (style : StyleDef) (ordered : Bool)
    (counter : Int) (depth : Nat) (st : RState) (n : ASTNode) :
    List PElem × RState :=
  match n with
  | .mk ty attrs children =>
    let extra : Rat := (depth : Rat) * 20
    let paraSpec :=
      { style.para with left_margin_pt := style.para.left_margin_pt + extra }
    let pfx :=
      if ty = .task_list_item then
        (if attrs.checked then "☑ " else "☐ ")
      else if ordered then toString counter ++ ". "
      else (bulletGlyphs.getD (depth % 3) "") ++ " "
    let (inlineRuns, nested, st1) :=
      renderLIChildren sm style depth st children
    finishListItem style paraSpec pfx
      ("  " ++ repeatStr "  " depth ++ pfx
        ++ (extractPlainText (.mk ty attrs children)).trim.take 80)
      st1 inlineRuns nested
termination_by (sizeOf n, 0)

/-- The child loop of `_render_single_list_item`: paragraph/text children
contribute inline runs; nested lists are rendered at depth+1 via
`_render_nested_list`; anything else goes through normal dispatch.  The
nested fragments are appended after the item's own paragraph. -/
def renderLIChildren (sm : StyleMap) (style : StyleDef) (depth : Nat)
    (st : RState) (ns : List ASTNode) :
    List (String × FontSpec) × List PElem × RState :=
  match ns with
  | [] => ([], [], st)
  | (ASTNode.mk cty cattrs cchildren) :: rest =>
    if cty = .paragraph ∨ cty = .text then
      let runs := collectInlineRuns sm style.font (.mk cty cattrs cchildren)
      let (rs, els, st1) := renderLIChildren sm style depth st rest
      (runs ++ rs, els, st1)
    else if cty = .ordered_list ∨ cty = .unordered_list then
      let ordered := cty = .ordered_list
      let (els1, st1) := renderListItems sm style ordered
        (if ordered then cattrs.start else 0) (depth + 1) st cchildren
      let (rs, els2, st2) := renderLIChildren sm style depth st1 rest
      (rs, els1 ++ els2, st2)
    else
      let (els1, st1) := renderNode sm st (.mk cty cattrs cchildren)
      let (rs, els2, st2) := renderLIChildren sm style depth st1 rest
      (rs, els1 ++ els2, st2)
termination_by (sizeOf ns, 0)
end

/-- `_ALL_NS_DECL` (`renderer.py`): the namespace declarations placed on
root elements. -/
def ALL_NS_DECL : String :=
  " xmlns:ha=\"http://www.hancom.co.kr/hwpml/2011/app\""
  ++ " xmlns:hp=\"http://www.hancom.co.kr/hwpml/2011/paragraph\""
  ++ " xmlns:hp10=\"http://www.hancom.co.kr/hwpml/2016/paragraph\""
  ++ " xmlns:hs=\"http://www.hancom.co.kr/hwpml/2011/section\""
  ++ " xmlns:hc=\"http://www.hancom.co.kr/hwpml/2011/core\""
  ++ " xmlns:hh=\"http://www.hancom.co.kr/hwpml/2011/head\""
  ++ " xmlns:hhs=\"http://www.hancom.co.kr/hwpml/2011/history\""
  ++ " xmlns:hm=\"http://www.hancom.co.kr/hwpml/2011/master-page\""
  ++ " xmlns:hpf=\"http://www.hancom.co.kr/schema/2011/hpf\""
  ++ " xmlns:dc=\"http://purl.org/dc/elements/1.1/\""
  ++ " xmlns:opf=\"http://www.idpf.org/2007/opf/\""
  ++ " xmlns:ooxmlchart=\"http://www.hancom.co.kr/hwpml/2016/ooxmlchart\""
  ++ " xmlns:hwpunitchar=\"http://www.hancom.co.kr/hwpml/2016/HwpUnitChar\""
  ++ " xmlns:epub=\"http://www.idpf.org/2007/ops\""
  ++ " xmlns:config=\"urn:oasis:names:tc:opendocument:xmlns:config:1.0\""

/-- `HwpxRenderer._build_version_xml`: fixed content. -/
def buildVersionXml : String :=
  "<?xml version=\"1.0\" encoding=\"UTF-8\" standalone=\"yes\" ?>"
  ++ "<hv:HCFVersion"
  ++ " xmlns:hv=\"http://www.hancom.co.kr/hwpml/2011/version\""
  ++ " tagetApplication=\"WORDPROCESSOR\""
  ++ " major=\"5\" minor=\"1\" micro=\"1\" buildNumber=\"0\""
  ++ " os=\"1\" xmlVersion=\"1.5\""
  ++ " application=\"Hancom Office Hangul\""
  ++ " appVersion=\"13, 0, 0, 1408 WIN32LEWindows_10\"/>"

/-- `HwpxRenderer._build_settings_xml`: fixed content. -/
def buildSettingsXml : String :=
  "<?xml version=\"1.0\" encoding=\"UTF-8\" standalone=\"yes\" ?>"
  ++ "<ha:HWPApplicationSetting"
  ++ " xmlns:ha=\"http://www.hancom.co.kr/hwpml/2011/app\""
  ++ " xmlns:config=\"urn:oasis:names:tc:opendocument:xmlns:config:1.0\">"
  ++ "<ha:CaretPosition listIDRef=\"0\" paraIDRef=\"0\" pos=\"0\"/>"
  ++ "</ha:HWPApplicationSetting>"

/-- `HwpxRenderer._build_container_xml`: fixed content. -/
def buildContainerXml : String :=
  "<?xml version=\"1.0\" encoding=\"UTF-8\" standalone=\"yes\" ?>"
  ++ "<ocf:container"
  ++ " xmlns:ocf=\"urn:oasis:names:tc:opendocument:xmlns:container\""
  ++ " xmlns:hpf=\"http://www.hancom.co.kr/schema/2011/hpf\">"
  ++ "<ocf:rootfiles>"
  ++ "<ocf:rootfile full-path=\"Contents/content.hpf\""
  ++ " media-type=\"application/hwpml-package+xml\"/>"
  ++ "<ocf:rootfile full-path=\"Preview/PrvText.txt\""
  ++ " media-type=\"text/plain\"/>"
  ++ "<ocf:rootfile full-path=\"META-INF/container.rdf\""
  ++ " media-type=\"application/rdf+xml\"/>"
  ++ "</ocf:rootfiles>"
  ++ "</ocf:container>"

/-- `HwpxRenderer._build_manifest_xml`: fixed content. -/
def buildManifestXml : String :=
  "<?xml version=\"1.0\" encoding=\"UTF-8\" standalone=\"yes\" ?>"
  ++ "<odf:manifest"
  ++ " xmlns:odf=\"urn:oasis:names:tc:opendocument:xmlns:manifest:1.0\"/>"

/-- `HwpxRenderer._build_container_rdf`: fixed content. -/
def buildContainerRdf : String :=
  "<?xml version=\"1.0\" encoding=\"UTF-8\" standalone=\"yes\" ?>"
  ++ "<rdf:RDF xmlns:rdf=\"http://www.w3.org/1999/02/22-rdf-syntax-ns#\">"
  ++ "<rdf:Description rdf:about=\"\">"
  ++ "<ns0:hasPart xmlns:ns0=\"http://www.hancom.co.kr/hwpml/2016/meta/pkg#\""
  ++ " rdf:resource=\"Contents/header.xml\"/>"
  ++ "</rdf:Description>"
  ++ "<rdf:Description rdf:about=\"Contents/header.xml\">"
  ++ "<rdf:type rdf:resource="
  ++ "\"http://www.hancom.co.kr/hwpml/2016/meta/pkg#HeaderFile\"/>"
  ++ "</rdf:Description>"
  ++ "<rdf:Description rdf:about=\"\">"
  ++ "<ns0:hasPart xmlns:ns0=\"http://www.hancom.co.kr/hwpml/2016/meta/pkg#\""
  ++ " rdf:resource=\"Contents/section0.xml\"/>"
  ++ "</rdf:Description>"
  ++ "<rdf:Description rdf:about=\"Contents/section0.xml\">"
  ++ "<rdf:type rdf:resource="
  ++ "\"http://www.hancom.co.kr/hwpml/2016/meta/pkg#SectionFile\"/>"
  ++ "</rdf:Description>"
  ++ "<rdf:Description rdf:about=\"\">"
  ++ "<rdf:type rdf:resource="
  ++ "\"http://www.hancom.co.kr/hwpml/2016/meta/pkg#Document\"/>"
  ++ "</rdf:Description>"
  ++ "</rdf:RDF>"

/-- `HwpxRenderer._build_content_hpf`: fixed content. -/
def buildContentHpf : String :=
  "<?xml version=\"1.0\" encoding=\"UTF-8\" standalone=\"yes\" ?>"
  ++ "<opf:package" ++ ALL_NS_DECL
  ++ " version=\"\" unique-identifier=\"\" id=\"\">"
  ++ "<opf:metadata>"
  ++ "<opf:title/>"
  ++ "<opf:language>ko</opf:language>"
  ++ "<opf:meta name=\"creator\" content=\"text\">md2hwpx</opf:meta>"
  ++ "</opf:metadata>"
  ++ "<opf:manifest>"
  ++ "<opf:item id=\"header\" href=\"Contents/header.xml\""
  ++ " media-type=\"application/xml\"/>"
  ++ "<opf:item id=\"section0\" href=\"Contents/section0.xml\""
  ++ " media-type=\"application/xml\"/>"
  ++ "<opf:item id=\"settings\" href=\"settings.xml\""
  ++ " media-type=\"application/xml\"/>"
  ++ "</opf:manifest>"
  ++ "<opf:spine>"
  ++ "<opf:itemref idref=\"header\" linear=\"yes\"/>"
  ++ "<opf:itemref idref=\"section0\" linear=\"yes\"/>"
  ++ "</opf:spine>"
  ++ "</opf:package>"

/-- The style-dictionary part (`Contents/header.xml`) as serialized by
`_build_header_xml`, restricted to its ID-bearing payload: the ordered
font list and the `charPr`/`paraPr` entries, each serialized with
`id = idx` from `enumerate` over the registry lists (with the source's
fallbacks when a registry list is empty). -/
structure HeaderModel where
  fonts : List String
  charEntries : List (Nat × FontSpec)
  paraEntries : List (Nat × ParaSpec)
deriving DecidableEq, Repr

/-- `HwpxRenderer._build_header_xml`, ID-bearing payload. -/
def buildHeaderModel (sm : StyleMap) (reg : Registry) : HeaderModel :=
  let fonts := if reg.fonts = [] then ["맑은 고딕"] else reg.fonts
  let chars := if reg.charList = [] then [(sm "body").font] else reg.charList
  let paras := if reg.paraList = [] then [(sm "body").para] else reg.paraList
  { fonts := fonts, charEntries := chars.enum, paraEntries := paras.enum }

/-- The fallback blank paragraph `_build_section_xml` emits when the
document produced no body fragments. -/
structure FallbackPara where
  id : Nat
  paraPr : Nat
  paraSpecG : ParaSpec
  charPr : Nat
  fontG : FontSpec
deriving DecidableEq, Repr

/-- The content part (`Contents/section0.xml`) as serialized by
`_build_section_xml`: the preamble paragraph holding `secPr` (its
`paraPrIDRef`/`charPrIDRef` and the specs they were registered for), the
body fragments, and the optional fallback blank paragraph. -/
structure SectionModel where
  firstParaId : Nat
  firstParaPr : Nat
  firstParaSpecG : ParaSpec
  firstCharPr : Nat
  firstFontG : FontSpec
  body : List PElem
  fallback : Option FallbackPara
deriving DecidableEq, Repr

/-- `HwpxRenderer._build_section_xml`: register the body style for the
preamble paragraph (both registrations return existing IDs in a real
render because `render` pre-registers the body style), emit the body
fragments, and fall back to a single blank body paragraph when there are
none. -/
def buildSection (sm : StyleMap) (st : RState) (body : List PElem) :
    SectionModel × RState :=
  let bodyStyle := sm "body"
  let (firstCharId, reg1) := registerChar st.reg bodyStyle.font
  let st1 := { st with reg := reg1, paraId := st.paraId + 1 }
  let firstParaId := st1.paraId
  let (firstParaPr, reg2) := registerPara st1.reg bodyStyle.para
  let st2 := { st1 with reg := reg2 }
  if body = [] then
    let st3 := { st2 with paraId := st2.paraId + 1 }
    let (ppid, reg3) := registerPara st3.reg bodyStyle.para
    let (cpid, reg4) := registerChar reg3 bodyStyle.font
    ({ firstParaId := firstParaId, firstParaPr := firstParaPr,
       firstParaSpecG := bodyStyle.para, firstCharPr := firstCharId,
       firstFontG := bodyStyle.font, body := [],
       fallback := some { id := st3.paraId, paraPr := ppid,
                          paraSpecG := bodyStyle.para, charPr := cpid,
                          fontG := bodyStyle.font } },
     { st3 with reg := reg4 })
  else
    ({ firstParaId := firstParaId, firstParaPr := firstParaPr,
       firstParaSpecG := bodyStyle.para, firstCharPr := firstCharId,
       firstFontG := bodyStyle.font, body := body, fallback := none }, st2)

/-- Payload of one ZIP entry: a fixed/preview text part, the style
dictionary, or the content section. -/
inductive PartData where
  | text (s : String)
  | head (h : HeaderModel)
  | sec (s : SectionModel)
deriving DecidableEq, Repr

/-- One entry of the generated ZIP archive, in write order.  `stored` is
true for `ZIP_STORED` (uncompressed); every other entry uses the archive
default `ZIP_DEFLATED`. -/
structure ZEntry where
  name : String
  stored : Bool
  data : PartData
deriving DecidableEq, Repr

/-- `HwpxRenderer._package_hwpx`: the ZIP entries in exact write order.
The mimetype entry is written first with `ZIP_STORED`; the header part is
serialized from the registry *before* the section part is built; the
preview part is the first 50 preview lines joined with newlines. -/
def packageHwpx (sm : StyleMap) (st : RState) (body : List PElem) :
    List ZEntry × RState :=
  let hm := buildHeaderModel sm st.reg
  let (secm, st1) := buildSection sm st body
  let previewStr := String.intercalate "\n" (st1.preview.take 50)
  ([⟨"mimetype", true, .text "application/hwp+zip"⟩,
    ⟨"version.xml", false, .text buildVersionXml⟩,
    ⟨"META-INF/container.xml", false, .text buildContainerXml⟩,
    ⟨"META-INF/manifest.xml", false, .text buildManifestXml⟩,
    ⟨"META-INF/container.rdf", false, .text buildContainerRdf⟩,
    ⟨"settings.xml", false, .text buildSettingsXml⟩,
    ⟨"Contents/content.hpf", false, .text buildContentHpf⟩,
    ⟨"Contents/header.xml", false, .head hm⟩,
    ⟨"Contents/section0.xml", false, .sec secm⟩,
    ⟨"Preview/PrvText.txt", false, .text previewStr⟩], st1)

/-- The body of `HwpxRenderer.render` after the document-type assertion:
reset `_para_id`, `_preview_lines` and `_registry`, pre-register the body
style, render the children in order, and package. -/
def renderCore (sm : StyleMap) (children : List ASTNode) :
    List ZEntry × RState :=
  let st0 : RState := {}
  let bodyStyle := sm "body"
  let reg1 := (registerChar st0.reg bodyStyle.font).2
  let reg2 := (registerPara reg1 bodyStyle.para).2
  let st1 := { st0 with reg := reg2 }
  let (frags, st2) := renderNodes sm st1 children
  packageHwpx sm st2 frags

/-- `HwpxRenderer.render`: asserts the root is a DOCUMENT node, then
resets all per-render mutable state (so the prior state `st0` of the
renderer instance is discarded) and renders the children. -/
def render (sm : StyleMap) (_st0 : RState) (doc : ASTNode) :
    Option (List ZEntry × RState) :=
  if doc.ty = .document then some (renderCore sm doc.children) else none

/-- Keyword arguments of `FontSpec.derive` (`style_manager.py`),
partitioned by Python attribute semantics on a `FontSpec` instance: one
constructor per settable dataclass field; `size_hwp` for the read-only
`@property` of that name (`hasattr` is true, so `derive` calls `setattr`,
which raises `AttributeError` because the property has no setter); and
`absent` for a keyword naming no attribute at all (`hasattr` is false, so
the override is silently skipped). -/
inductive FontKw where
  | hangul (v : String)
  | latin (v : String)
  | size_pt (v : Rat)
  | bold (v : Bool)
  | italic (v : Bool)
  | underline (v : Bool)
  | strikethrough (v : Bool)
  | color (v : String)
  | background (v : String)
  | size_hwp (v : Int)
  | absent (name : String)
deriving DecidableEq, Repr

/-- `FontSpec.derive(**overrides)`: deep-copy then, for each keyword in
order, set the field when the name is an attribute (raising on the
read-only property), else skip it.  The original value is unchanged
(Lean values are immutable, matching the deep copy). -/
def FontSpec.deriveKw (f : FontSpec) : List FontKw → Except String FontSpec
  | [] => .ok f
  | k :: rest =>
    match k with
    | .hangul v => FontSpec.deriveKw { f with hangul := v } rest
    | .latin v => FontSpec.deriveKw { f with latin := v } rest
    | .size_pt v => FontSpec.deriveKw { f with size_pt := v } rest
    | .bold v => FontSpec.deriveKw { f with bold := v } rest
    | .italic v => FontSpec.deriveKw { f with italic := v } rest
    | .underline v => FontSpec.deriveKw { f with underline := v } rest
    | .strikethrough v =>
      FontSpec.deriveKw { f with strikethrough := v } rest
    | .color v => FontSpec.deriveKw { f with color := v } rest
    | .background v => FontSpec.deriveKw { f with background := v } rest
    | .size_hwp _ => .error "AttributeError: property has no setter"
    | .absent _ => FontSpec.deriveKw f rest

/-- Keyword arguments of `ParaSpec.derive`, partitioned like `FontKw`:
one constructor per settable dataclass field; `hwp_prop` for the five
read-only `@property` names (`left_margin_hwp`, `right_margin_hwp`,
`indent_hwp`, `space_before_hwp`, `space_after_hwp`), on which `setattr`
raises `AttributeError`; `absent` for names with no attribute. -/
inductive ParaKw where
  | align (v : String)
  | indent_pt (v : Rat)
  | left_margin_pt (v : Rat)
  | right_margin_pt (v : Rat)
  | line_spacing_percent (v : Int)
  | space_before_pt (v : Rat)
  | space_after_pt (v : Rat)
  | hwp_prop (name : String) (v : Int)
  | absent (name : String)
deriving DecidableEq, Repr

/-- `ParaSpec.derive(**overrides)`. -/
def ParaSpec.deriveKw (p : ParaSpec) : List ParaKw → Except String ParaSpec
  | [] => .ok p
  | k :: rest =>
    match k with
    | .align v => ParaSpec.deriveKw { p with align := v } rest
    | .indent_pt v => ParaSpec.deriveKw { p with indent_pt := v } rest
    | .left_margin_pt v =>
      ParaSpec.deriveKw { p with left_margin_pt := v } rest
    | .right_margin_pt v =>
      ParaSpec.deriveKw { p with right_margin_pt := v } rest
    | .line_spacing_percent v =>
      ParaSpec.deriveKw { p with line_spacing_percent := v } rest
    | .space_before_pt v =>
      ParaSpec.deriveKw { p with space_before_pt := v } rest
    | .space_after_pt v =>
      ParaSpec.deriveKw { p with space_after_pt := v } rest
    | .hwp_prop _ _ => .error "AttributeError: property has no setter"
    | .absent _ => ParaSpec.deriveKw p rest

/-! ## Predicates and fixtures used by the theorems -/

/-- The registry only grows by appending: `r'` extends `r`. -/
def Registry.Ext (r r' : Registry) : Prop :=
  (∃ t, r'.fonts = r.fonts ++ t) ∧ (∃ t, r'.charList = r.charList ++ t)
  ∧ (∃ t, r'.paraList = r.paraList ++ t)

/-- The ID-indexed list `l` has entry `x` serialized at index `i` with
`id = i` (the shape produced by `enumerate`). -/
def entryAt {α : Type} (l : List (Nat × α)) (i : Nat) (x : α) : Prop :=
  l[i]? = some (i, x)

/-- A run's `charPrIDRef` resolves to the run's own font spec in the
registry. -/
def RunOk (reg : Registry) (r : RunE) : Prop :=
  reg.charList[r.charPr]? = some r.fontG

/-- A paragraph's `paraPrIDRef` and all its runs resolve in the
registry. -/
def BaseParaOk (reg : Registry) (p : BasePara) : Prop :=
  reg.paraList[p.paraPr]? = some p.paraSpecG ∧ ∀ r ∈ p.runs, RunOk reg r

/-- A content fragment's IDs (its own, its runs', and those of every
table-cell paragraph inside it) resolve in the registry. -/
def PElemOk (reg : Registry) (e : PElem) : Prop :=
  reg.paraList[e.paraPr]? = some e.paraSpecG
  ∧ (∀ r ∈ e.runs, RunOk reg r)
  ∧ ∀ t, e.tbl = some t → ∀ row ∈ t.rows, ∀ c ∈ row, BaseParaOk reg c.para

/-- A content fragment's IDs all resolve against the serialized style
dictionary: each referenced ID is the index of the entry holding the very
spec the ID was registered for. -/
def PElemOkH (hm : HeaderModel) (e : PElem) : Prop :=
  entryAt hm.paraEntries e.paraPr e.paraSpecG
  ∧ (∀ r ∈ e.runs, entryAt hm.charEntries r.charPr r.fontG)
  ∧ ∀ t, e.tbl = some t → ∀ row ∈ t.rows, ∀ c ∈ row,
      entryAt hm.paraEntries c.para.paraPr c.para.paraSpecG
      ∧ ∀ r ∈ c.para.runs, entryAt hm.charEntries r.charPr r.fontG

/-- Cross-reference integrity of a whole content part against a style
dictionary: the preamble paragraph, every body fragment, and the fallback
blank paragraph (when present) only reference IDs that are the index of
the corresponding spec in the dictionary. -/
def SectionOkH (hm : HeaderModel) (s : SectionModel) : Prop :=
  entryAt hm.paraEntries s.firstParaPr s.firstParaSpecG
  ∧ entryAt hm.charEntries s.firstCharPr s.firstFontG
  ∧ (∀ e ∈ s.body, PElemOkH hm e)
  ∧ ∀ fb, s.fallback = some fb →
      entryAt hm.paraEntries fb.paraPr fb.paraSpecG
      ∧ entryAt hm.charEntries fb.charPr fb.fontG

/-- Invariant of one rendering step: the registry only grows and every
produced fragment's IDs resolve in the resulting registry. -/
def StepOk (st st' : RState) (els : List PElem) : Prop :=
  Registry.Ext st.reg st'.reg ∧ ∀ e ∈ els, PElemOk st'.reg e

/-- The first style-dictionary payload of an archive. -/
def archiveHeader : List ZEntry → Option HeaderModel
  | [] => none
  | e :: rest =>
    match e.data with
    | .head h => some h
    | _ => archiveHeader rest

/-- The first content-part payload of an archive. -/
def archiveSection : List ZEntry → Option SectionModel
  | [] => none
  | e :: rest =>
    match e.data with
    | .sec s => some s
    | _ => archiveSection rest

/-- The `colCnt` attribute of the table in a single-fragment render
output, when present. -/
def tblColCnt : List PElem → Option Nat
  | [p] => p.tbl.map (·.colCnt)
  | _ => none

/-- A concrete style definition (all `FontSpec`/`ParaSpec` defaults) used
for concrete evaluations. -/
def defStyle : StyleDef := { name := "default", font := {}, para := {} }

/-- A concrete style map assigning `defStyle` to every semantic name. -/
def sm0 : StyleMap := fun _ => defStyle

/-- The fresh renderer state. -/
def st00 : RState := {}

/-- A heading node with no text and no children (its collected run list
is empty). -/
def cHeadingEmpty : ASTNode := .mk .heading {} []

/-- An image node with empty alt and title and a nonempty URL. -/
def cImageUrlOnly : ASTNode := .mk .image { url := "u" } []

/-- A table node with zero rows. -/
def cTableEmpty : ASTNode := .mk .table {} []

/-- A table node whose single row has zero cells. -/
def cTableOneEmptyRow : ASTNode := .mk .table {} [.mk .table_row {} []]

/-! ## Registry lemmas -/

theorem Registry.Ext.extRefl (r : Registry) : Registry.Ext r r :=
  ⟨⟨[], by simp⟩, ⟨[], by simp⟩, ⟨[], by simp⟩⟩

theorem Registry.Ext.trans {r1 r2 r3 : Registry}
    (h12 : Registry.Ext r1 r2) (h23 : Registry.Ext r2 r3) :
    Registry.Ext r1 r3 := by
  obtain ⟨⟨a1, ha1⟩, ⟨b1, hb1⟩, ⟨c1, hc1⟩⟩ := h12
  obtain ⟨⟨a2, ha2⟩, ⟨b2, hb2⟩, ⟨c2, hc2⟩⟩ := h23
  exact ⟨⟨a1 ++ a2, by simp [ha2, ha1]⟩, ⟨b1 ++ b2, by simp [hb2, hb1]⟩,
    ⟨c1 ++ c2, by simp [hc2, hc1]⟩⟩

theorem getElem?_of_append {α : Type} {l t : List α} {i : Nat} {x : α}
    (h : l[i]? = some x) : (l ++ t)[i]? = some x := by
  have hi : i < l.length := (List.getElem?_eq_some.mp h).1
  rw [List.getElem?_append]
  simp [hi, h]

theorem getElem?_mono_of_ext {l l' : List FontSpec} {i : Nat} {x : FontSpec}
    (he : ∃ t, l' = l ++ t) (h : l[i]? = some x) : l'[i]? = some x := by
  obtain ⟨t, rfl⟩ := he
  exact getElem?_of_append h

theorem getElem?_mono_of_ext_para {l l' : List ParaSpec} {i : Nat}
    {x : ParaSpec} (he : ∃ t, l' = l ++ t) (h : l[i]? = some x) :
    l'[i]? = some x := by
  obtain ⟨t, rfl⟩ := he
  exact getElem?_of_append h

theorem mem_mono_of_ext {l l' : List String} {x : String}
    (he : ∃ t, l' = l ++ t) (h : x ∈ l) : x ∈ l' := by
  obtain ⟨t, rfl⟩ := he
  exact List.mem_append_left _ h

/-- `register_font_name`: the registry only grows (char/para lists are
untouched) and the returned index resolves to the registered name. -/
theorem registerFontName_spec (r : Registry) (nm : String) :
    (∃ t, ((registerFontName r nm).2).fonts = r.fonts ++ t)
    ∧ ((registerFontName r nm).2).charList = r.charList
    ∧ ((registerFontName r nm).2).paraList = r.paraList
    ∧ ((registerFontName r nm).2).fonts[(registerFontName r nm).1]? = some nm := by
  unfold registerFontName
  cases h : r.fonts.findIdx? (· = nm) with
  | none =>
    refine ⟨⟨[nm], by simp⟩, by simp, by simp, ?_⟩
    simp
  | some i =>
    obtain ⟨hi, hfind⟩ := List.findIdx?_eq_some_iff_findIdx_eq.mp h
    subst hfind
    refine ⟨⟨[], by simp⟩, by simp, by simp, ?_⟩
    have hx := @List.findIdx_getElem _ (fun x => x = nm) r.fonts hi
    simp only [decide_eq_true_eq] at hx
    rw [List.getElem?_eq_getElem hi]
    exact congrArg some hx

/-- `register_char`: the registry only grows and the returned index
resolves to the registered spec. -/
theorem registerChar_spec (r : Registry) (f : FontSpec) :
    Registry.Ext r (registerChar r f).2
    ∧ ((registerChar r f).2).charList[(registerChar r f).1]? = some f := by
  unfold registerChar
  cases h : r.charList.findIdx? (· = f) with
  | none =>
    obtain ⟨hf1, hc1, hp1, _⟩ :=
      registerFontName_spec { r with charList := r.charList ++ [f] } f.hangul
    obtain ⟨hf2, hc2, hp2, _⟩ := registerFontName_spec
      (registerFontName { r with charList := r.charList ++ [f] } f.hangul).2
      f.latin
    refine ⟨⟨?_, ?_, ?_⟩, ?_⟩
    · obtain ⟨t1, ht1⟩ := hf1
      obtain ⟨t2, ht2⟩ := hf2
      exact ⟨t1 ++ t2, by simp [ht2, ht1]⟩
    · exact ⟨[f], by simp [hc2, hc1]⟩
    · exact ⟨[], by simp [hp2, hp1]⟩
    · simp only [hc2, hc1]
      simp
  | some i =>
    obtain ⟨hi, hfind⟩ := List.findIdx?_eq_some_iff_findIdx_eq.mp h
    subst hfind
    refine ⟨Registry.Ext.extRefl r, ?_⟩
    have hx := @List.findIdx_getElem _ (fun x => x = f) r.charList hi
    simp only [decide_eq_true_eq] at hx
    rw [List.getElem?_eq_getElem hi]
    exact congrArg some hx

/-- `register_char` on an already-registered spec: the registry is
returned unchanged (identity of the early-return branch). -/
theorem registerChar_of_mem {r : Registry} {f : FontSpec}
    (h : f ∈ r.charList) : (registerChar r f).2 = r := by
  have : r.charList.findIdx? (· = f) = some (r.charList.findIdx (· = f)) :=
    List.findIdx?_eq_some_of_exists ⟨f, h, by simp⟩
  unfold registerChar
  rw [this]

/-- `register_char` on a fresh spec: the next integer is assigned, the
spec is appended, and both its font names are registered. -/
theorem registerChar_of_not_mem {r : Registry} {f : FontSpec}
    (h : f ∉ r.charList) :
    (registerChar r f).1 = r.charList.length
    ∧ ((registerChar r f).2).charList = r.charList ++ [f]
    ∧ f.hangul ∈ ((registerChar r f).2).fonts
    ∧ f.latin ∈ ((registerChar r f).2).fonts := by
  have hnone : r.charList.findIdx? (· = f) = none := by
    rw [List.findIdx?_eq_none_iff]
    intro x hx
    simp only [decide_eq_false_iff_not]
    intro hxf
    exact h (hxf ▸ hx)
  unfold registerChar
  rw [hnone]
  obtain ⟨hf1, hc1, hp1, hn1⟩ :=
    registerFontName_spec { r with charList := r.charList ++ [f] } f.hangul
  obtain ⟨hf2, hc2, hp2, hn2⟩ := registerFontName_spec
    (registerFontName { r with charList := r.charList ++ [f] } f.hangul).2
    f.latin
  refine ⟨rfl, by simp [hc2, hc1], ?_, ?_⟩
  · exact mem_mono_of_ext hf2
      (List.getElem?_mem hn1)
  · exact List.getElem?_mem hn2

/-- `register_para`: the registry only grows and the returned index
resolves to the registered spec. -/
theorem registerPara_spec (r : Registry) (p : ParaSpec) :
    Registry.Ext r (registerPara r p).2
    ∧ ((registerPara r p).2).paraList[(registerPara r p).1]? = some p := by
  unfold registerPara
  cases h : r.paraList.findIdx? (· = p) with
  | none =>
    refine ⟨⟨⟨[], by simp⟩, ⟨[], by simp⟩, ⟨[p], by simp⟩⟩, ?_⟩
    simp
  | some i =>
    obtain ⟨hi, hfind⟩ := List.findIdx?_eq_some_iff_findIdx_eq.mp h
    subst hfind
    refine ⟨Registry.Ext.extRefl r, ?_⟩
    have hx := @List.findIdx_getElem _ (fun x => x = p) r.paraList hi
    simp only [decide_eq_true_eq] at hx
    rw [List.getElem?_eq_getElem hi]
    exact congrArg some hx

/-- `register_para` on an already-registered spec: registry unchanged. -/
theorem registerPara_of_mem {r : Registry} {p : ParaSpec}
    (h : p ∈ r.paraList) : (registerPara r p).2 = r := by
  have : r.paraList.findIdx? (· = p) = some (r.paraList.findIdx (· = p)) :=
    List.findIdx?_eq_some_of_exists ⟨p, h, by simp⟩
  unfold registerPara
  rw [this]

/-- `register_para` on a fresh spec: next integer, appended entry. -/
theorem registerPara_of_not_mem {r : Registry} {p : ParaSpec}
    (h : p ∉ r.paraList) :
    (registerPara r p).1 = r.paraList.length
    ∧ ((registerPara r p).2).paraList = r.paraList ++ [p] := by
  have hnone : r.paraList.findIdx? (· = p) = none := by
    rw [List.findIdx?_eq_none_iff]
    intro x hx
    simp only [decide_eq_false_iff_not]
    intro hxp
    exact h (hxp ▸ hx)
  unfold registerPara
  rw [hnone]
  exact ⟨rfl, by simp⟩

/-! ## Goodness monotonicity and paragraph-builder lemmas -/

theorem RunOk.monoR {reg reg' : Registry} (he : Registry.Ext reg reg')
    {r : RunE} (h : RunOk reg r) : RunOk reg' r :=
  getElem?_mono_of_ext he.2.1 h

theorem BaseParaOk.monoB {reg reg' : Registry} (he : Registry.Ext reg reg')
    {p : BasePara} (h : BaseParaOk reg p) : BaseParaOk reg' p :=
  ⟨getElem?_mono_of_ext_para he.2.2 h.1,
   fun r hr => (h.2 r hr).monoR he⟩

theorem PElemOk.monoP {reg reg' : Registry} (he : Registry.Ext reg reg')
    {e : PElem} (h : PElemOk reg e) : PElemOk reg' e :=
  ⟨getElem?_mono_of_ext_para he.2.2 h.1,
   fun r hr => (h.2.1 r hr).monoR he,
   fun t ht row hrow c hc => ((h.2.2 t ht row hrow c hc).monoB he)⟩

/-- The run loop of `_make_paragraph`: the registry only grows, every
produced run resolves in the resulting registry, and the (text, font)
payload is exactly the non-empty-text input runs. -/
theorem buildRuns_spec (runs : List (String × FontSpec)) (r : Registry) :
    Registry.Ext r (buildRuns r runs).2
    ∧ (∀ e ∈ (buildRuns r runs).1, RunOk (buildRuns r runs).2 e)
    ∧ (buildRuns r runs).1.map (fun e => (e.text, e.fontG))
        = runs.filter (fun tf => tf.1 ≠ "")
    ∧ ((buildRuns r runs).1 = [] → runs.filter (fun tf => tf.1 ≠ "") = []) := by
  induction runs generalizing r with
  | nil => simpa [buildRuns] using Registry.Ext.extRefl r
  | cons tf rest ih =>
    obtain ⟨t, f⟩ := tf
    by_cases ht : t = ""
    · subst ht
      simpa [buildRuns] using ih r
    · obtain ⟨hext, hruns, hmap, _⟩ := ih (registerChar r f).2
      obtain ⟨hext0, hget0⟩ := registerChar_spec r f
      have hb : buildRuns r ((t, f) :: rest)
          = ({ charPr := (registerChar r f).1, fontG := f, text := t }
              :: (buildRuns (registerChar r f).2 rest).1,
             (buildRuns (registerChar r f).2 rest).2) := by
        simp [buildRuns, ht]
      refine ⟨?_, ?_, ?_, ?_⟩
      · rw [hb]
        exact hext0.trans hext
      · rw [hb]
        intro e he
        rcases List.mem_cons.mp he with rfl | he2
        · exact RunOk.monoR hext hget0
        · exact hruns e he2
      · rw [hb]
        simp only [List.map_cons, hmap, List.filter_cons]
        simp [ht]
      · rw [hb]
        intro h
        simp at h

/-- `_make_paragraph`: the registry only grows, the produced paragraph's
IDs resolve in the resulting registry, the preview is untouched, the
paragraph ID is incremented by one, and the paragraph records the given
spec and the non-empty input runs. -/
theorem makeParagraph_spec (st : RState) (runs : List (String × FontSpec))
    (spec : ParaSpec) :
    Registry.Ext st.reg (makeParagraph st runs spec).2.reg
    ∧ BaseParaOk (makeParagraph st runs spec).2.reg
        (makeParagraph st runs spec).1
    ∧ (makeParagraph st runs spec).2.preview = st.preview
    ∧ (makeParagraph st runs spec).2.paraId = st.paraId + 1
    ∧ (makeParagraph st runs spec).1.id = st.paraId + 1
    ∧ (makeParagraph st runs spec).1.paraSpecG = spec
    ∧ (makeParagraph st runs spec).1.runs.map (fun e => (e.text, e.fontG))
        = runs.filter (fun tf => tf.1 ≠ "") := by
  obtain ⟨hext1, hget1⟩ := registerPara_spec st.reg spec
  obtain ⟨hext2, hruns, hmap, _⟩ := buildRuns_spec runs (registerPara st.reg spec).2
  have hm : makeParagraph st runs spec
      = ({ id := st.paraId + 1, paraPr := (registerPara st.reg spec).1,
           paraSpecG := spec,
           runs := (buildRuns (registerPara st.reg spec).2 runs).1 },
         { st with paraId := st.paraId + 1,
                   reg := (buildRuns (registerPara st.reg spec).2 runs).2 }) := by
    simp [makeParagraph]
  rw [hm]
  refine ⟨hext1.trans hext2, ⟨?_, ?_⟩, rfl, rfl, rfl, rfl, hmap⟩
  · exact getElem?_mono_of_ext_para hext2.2.2 hget1
  · exact hruns

/-! ## Per-renderer cross-reference lemmas -/

theorem BaseParaOk.toPElemOk {reg : Registry} {p : BasePara}
    (h : BaseParaOk reg p) : PElemOk reg p.toPElem := by
  refine ⟨h.1, h.2, ?_⟩
  intro t ht
  simp [BasePara.toPElem] at ht

theorem StepOk.stepRefl (st : RState) (els : List PElem)
    (h : ∀ e ∈ els, PElemOk st.reg e) : StepOk st st els :=
  ⟨Registry.Ext.extRefl st.reg, h⟩

theorem StepOk.preview {st st' : RState} {els : List PElem}
    (h : StepOk st st' els) (lines : List String) :
    StepOk st { st' with preview := st'.preview ++ lines } els := h

theorem StepOk.previewSet {st st' : RState} {els : List PElem}
    (h : StepOk st st' els) (pv : List String) :
    StepOk st { st' with preview := pv } els := h

/-- Composition: a second step after a first, collecting both outputs. -/
theorem StepOk.comp {st1 st2 st3 : RState} {els1 els2 : List PElem}
    (h1 : StepOk st1 st2 els1) (h2 : StepOk st2 st3 els2) :
    StepOk st1 st3 (els1 ++ els2) := by
  refine ⟨h1.1.trans h2.1, ?_⟩
  intro e he
  rcases List.mem_append.mp he with he1 | he2
  · exact (h1.2 e he1).monoP h2.1
  · exact h2.2 e he2

theorem makeParagraph_stepOk (st : RState) (runs : List (String × FontSpec))
    (spec : ParaSpec) :
    StepOk st (makeParagraph st runs spec).2
      [(makeParagraph st runs spec).1.toPElem] := by
  obtain ⟨hext, hok, _⟩ := makeParagraph_spec st runs spec
  refine ⟨hext, ?_⟩
  intro e he
  rcases List.mem_singleton.mp he with rfl
  exact hok.toPElemOk

theorem finishListItem_ok (style : StyleDef) (paraSpec : ParaSpec)
    (pfx pline : String) (st0 st1 : RState)
    (inlineRuns : List (String × FontSpec)) (nested : List PElem)
    (hext : Registry.Ext st0.reg st1.reg)
    (hnest : ∀ e ∈ nested, PElemOk st1.reg e) :
    StepOk st0
      (finishListItem style paraSpec pfx pline st1 inlineRuns nested).2
      (finishListItem style paraSpec pfx pline st1 inlineRuns nested).1 := by
  unfold finishListItem
  obtain ⟨mkExt, mkGood, _⟩ := makeParagraph_spec st1
    (match inlineRuns with
     | (t, f) :: more => (pfx ++ t, f) :: more
     | [] => [(pfx.trimRight, style.font)]) paraSpec
  refine ⟨hext.trans mkExt, fun e he => ?_⟩
  rcases List.mem_cons.mp he with rfl | he2
  · exact mkGood.toPElemOk
  · exact (hnest e he2).monoP mkExt

theorem renderHeading_ok (sm : StyleMap) (st : RState) (n : ASTNode) :
    StepOk st (renderHeading sm st n).2 (renderHeading sm st n).1 := by
  unfold renderHeading
  exact StepOk.preview
    (makeParagraph_stepOk st
      (collectInlineRuns sm
        (sm ("heading_" ++ toString (max 1 (min 6 n.attrs.level)))).font n)
      (sm ("heading_" ++ toString (max 1 (min 6 n.attrs.level)))).para)
    [extractPlainText n]

theorem renderParagraph_ok (sm : StyleMap) (st : RState) (n : ASTNode) :
    StepOk st (renderParagraph sm st n).2 (renderParagraph sm st n).1 := by
  by_cases hr : collectInlineRuns sm (sm "body").font n = []
  · have heq : renderParagraph sm st n = ([], st) := by
      simp [renderParagraph, hr]
    rw [heq]
    exact StepOk.stepRefl st [] (by simp)
  · by_cases ht : (extractPlainText n).trim = ""
    · have heq : renderParagraph sm st n
          = ([(makeParagraph st (collectInlineRuns sm (sm "body").font n)
                (sm "body").para).1.toPElem],
             (makeParagraph st (collectInlineRuns sm (sm "body").font n)
                (sm "body").para).2) := by
        simp [renderParagraph, hr, ht]
      rw [heq]
      exact makeParagraph_stepOk st
        (collectInlineRuns sm (sm "body").font n) (sm "body").para
    · have heq : renderParagraph sm st n
          = ([(makeParagraph st (collectInlineRuns sm (sm "body").font n)
                (sm "body").para).1.toPElem],
             { (makeParagraph st (collectInlineRuns sm (sm "body").font n)
                  (sm "body").para).2 with
               preview := (makeParagraph st
                  (collectInlineRuns sm (sm "body").font n)
                  (sm "body").para).2.preview ++ [extractPlainText n] }) := by
        simp [renderParagraph, hr, ht]
      rw [heq]
      exact StepOk.preview (makeParagraph_stepOk st _ _) _

theorem renderText_ok (sm : StyleMap) (st : RState) (n : ASTNode) :
    StepOk st (renderText sm st n).2 (renderText sm st n).1 := by
  by_cases hr : n.attrs.text = ""
  · have heq : renderText sm st n = ([], st) := by
      simp [renderText, hr]
    rw [heq]
    exact StepOk.stepRefl st [] (by simp)
  · have heq : renderText sm st n
        = ([(makeParagraph st [(n.attrs.text, (sm "body").font)]
              (sm "body").para).1.toPElem],
           { (makeParagraph st [(n.attrs.text, (sm "body").font)]
                (sm "body").para).2 with
             preview := (makeParagraph st [(n.attrs.text, (sm "body").font)]
                (sm "body").para).2.preview ++ [n.attrs.text] }) := by
      simp [renderText, hr]
    rw [heq]
    exact StepOk.preview (makeParagraph_stepOk st _ _) _

theorem renderEmphBlock_ok (sm : StyleMap) (st : RState) (n : ASTNode)
    (font : FontSpec) :
    StepOk st (renderEmphBlock sm st n font).2
      (renderEmphBlock sm st n font).1 := by
  by_cases hr : collectInlineRuns sm font n = []
  · have heq : renderEmphBlock sm st n font = ([], st) := by
      simp [renderEmphBlock, hr]
    rw [heq]
    exact StepOk.stepRefl st [] (by simp)
  · have heq : renderEmphBlock sm st n font
        = ([(makeParagraph st (collectInlineRuns sm font n)
              (sm "body").para).1.toPElem],
           (makeParagraph st (collectInlineRuns sm font n)
              (sm "body").para).2) := by
      simp [renderEmphBlock, hr]
    rw [heq]
    exact makeParagraph_stepOk st (collectInlineRuns sm font n)
      (sm "body").para

theorem renderInlineCodeBlock_ok (sm : StyleMap) (st : RState)
    (n : ASTNode) :
    StepOk st (renderInlineCodeBlock sm st n).2
      (renderInlineCodeBlock sm st n).1 := by
  by_cases hr : pyOr n.attrs.text (extractPlainText n) = ""
  · have heq : renderInlineCodeBlock sm st n = ([], st) := by
      simp [renderInlineCodeBlock, hr]
    rw [heq]
    exact StepOk.stepRefl st [] (by simp)
  · have heq : renderInlineCodeBlock sm st n
        = ([(makeParagraph st
              [(pyOr n.attrs.text (extractPlainText n), (sm "inline_code").font)]
              (sm "body").para).1.toPElem],
           (makeParagraph st
              [(pyOr n.attrs.text (extractPlainText n), (sm "inline_code").font)]
              (sm "body").para).2) := by
      simp [renderInlineCodeBlock, hr]
    rw [heq]
    exact makeParagraph_stepOk st
      [(pyOr n.attrs.text (extractPlainText n), (sm "inline_code").font)]
      (sm "body").para

theorem codeBlockLines_ok (style : StyleDef) (lines : List String)
    (st : RState) :
    StepOk st (codeBlockLines style st lines).2
      (codeBlockLines style st lines).1 := by
  induction lines generalizing st with
  | nil =>
    exact StepOk.stepRefl st [] (by simp [codeBlockLines])
  | cons line rest ih =>
    have key : codeBlockLines style st (line :: rest)
        = ((makeParagraph st [(if line = "" then " " else line, style.font)]
             style.para).1.toPElem
           :: (codeBlockLines style
                (makeParagraph st [(if line = "" then " " else line, style.font)]
                  style.para).2 rest).1,
           (codeBlockLines style
             (makeParagraph st [(if line = "" then " " else line, style.font)]
               style.para).2 rest).2) := rfl
    rw [key]
    have h1 := makeParagraph_stepOk st
      [(if line = "" then " " else line, style.font)] style.para
    have h2 := ih (makeParagraph st
      [(if line = "" then " " else line, style.font)] style.para).2
    simpa using h1.comp h2

theorem renderCodeBlock_ok (sm : StyleMap) (st : RState) (n : ASTNode) :
    StepOk st (renderCodeBlock sm st n).2 (renderCodeBlock sm st n).1 := by
  unfold renderCodeBlock
  exact StepOk.preview
    (codeBlockLines_ok (sm "code_block")
      (if (n.attrs.text.splitOn "\n").getLast? = some ""
       then (n.attrs.text.splitOn "\n").dropLast
       else n.attrs.text.splitOn "\n") st) _

theorem renderHorizontalRule_ok (sm : StyleMap) (st : RState) :
    StepOk st (renderHorizontalRule sm st).2 (renderHorizontalRule sm st).1 := by
  unfold renderHorizontalRule
  exact StepOk.preview
    (makeParagraph_stepOk st [(repeatStr "─" 40, (sm "horizontal_rule").font)]
      { (sm "horizontal_rule").para with align := "center" }) ["---"]

theorem renderImageBlock_ok (sm : StyleMap) (st : RState) (n : ASTNode) :
    StepOk st (renderImageBlock sm st n).2 (renderImageBlock sm st n).1 := by
  unfold renderImageBlock
  exact StepOk.preview
    (makeParagraph_stepOk st
      [("[Image: "
          ++ pyOr n.attrs.alt (pyOr n.attrs.title (pyOr n.attrs.url "image"))
          ++ "]",
        { (sm "body").font with italic := true, color := "#666666" })]
      (sm "body").para) _

theorem renderLinkBlock_ok (sm : StyleMap) (st : RState) (n : ASTNode) :
    StepOk st (renderLinkBlock sm st n).2 (renderLinkBlock sm st n).1 := by
  unfold renderLinkBlock
  exact makeParagraph_stepOk st
    (if (if n.attrs.url ≠ "" then
          collectInlineRuns sm
            { (sm "body").font with underline := true, color := "#0563C1" } n
          ++ [(" (" ++ n.attrs.url ++ ")",
               { (sm "body").font with color := "#666666", size_pt := 8 })]
         else collectInlineRuns sm
            { (sm "body").font with underline := true, color := "#0563C1" } n)
        = []
     then [(n.attrs.url,
            { (sm "body").font with underline := true, color := "#0563C1" })]
     else (if n.attrs.url ≠ "" then
          collectInlineRuns sm
            { (sm "body").font with underline := true, color := "#0563C1" } n
          ++ [(" (" ++ n.attrs.url ++ ")",
               { (sm "body").font with color := "#666666", size_pt := 8 })]
         else collectInlineRuns sm
            { (sm "body").font with underline := true, color := "#0563C1" } n))
    (sm "body").para

theorem renderFootnoteRefBlock_ok (sm : StyleMap) (st : RState)
    (n : ASTNode) :
    StepOk st (renderFootnoteRefBlock sm st n).2
      (renderFootnoteRefBlock sm st n).1 := by
  unfold renderFootnoteRefBlock
  exact makeParagraph_stepOk st
    [("[" ++ n.attrs.footnote_id ++ "]",
      { (sm "body").font with size_pt := 7, color := "#0000FF" })]
    (sm "body").para

theorem fnDefChildren_ok (sm : StyleMap) (style : StyleDef) (pfx : String)
    (ns : List ASTNode) : ∀ (idx : Nat) (st : RState),
    StepOk st (fnDefChildren sm style pfx st idx ns).2
      (fnDefChildren sm style pfx st idx ns).1 := by
  induction ns with
  | nil =>
    intro idx st
    exact StepOk.stepRefl st [] (by simp [fnDefChildren])
  | cons c rest ih =>
    intro idx st
    simp only [fnDefChildren]
    split <;> split <;>
      first
        | exact ih (idx + 1) st
        | exact StepOk.comp (makeParagraph_stepOk st _ _) (ih (idx + 1) _)

theorem renderFootnoteDef_ok (sm : StyleMap) (st : RState) (n : ASTNode) :
    StepOk st (renderFootnoteDef sm st n).2 (renderFootnoteDef sm st n).1 := by
  simp only [renderFootnoteDef]
  split
  · rename_i hnil
    have h1 := fnDefChildren_ok sm (sm "footnote")
      ("[" ++ n.attrs.footnote_id ++ "] ") n.children 0 st
    have h2 := makeParagraph_stepOk
      (fnDefChildren sm (sm "footnote")
        ("[" ++ n.attrs.footnote_id ++ "] ") st 0 n.children).2
      [("[" ++ n.attrs.footnote_id ++ "] ", (sm "footnote").font)]
      (sm "footnote").para
    have h3 := h1.comp h2
    rw [hnil] at h3
    exact StepOk.preview h3 _
  · exact StepOk.preview
      (fnDefChildren_ok sm (sm "footnote")
        ("[" ++ n.attrs.footnote_id ++ "] ") n.children 0 st) _

theorem buildTableCells_spec (sm : StyleMap) (rowIdx : Nat) (colWidth : Int)
    (cells : List ASTNode) : ∀ (colIdx : Nat) (st : RState),
    Registry.Ext st.reg (buildTableCells sm rowIdx colWidth st colIdx cells).2.reg
    ∧ (∀ cm ∈ (buildTableCells sm rowIdx colWidth st colIdx cells).1,
        BaseParaOk (buildTableCells sm rowIdx colWidth st colIdx cells).2.reg cm.para)
    ∧ (buildTableCells sm rowIdx colWidth st colIdx cells).2.preview = st.preview
    ∧ (∀ cm ∈ (buildTableCells sm rowIdx colWidth st colIdx cells).1,
        cm.width = colWidth) := by
  induction cells with
  | nil =>
    intro colIdx st
    refine ⟨Registry.Ext.extRefl st.reg, ?_, rfl, ?_⟩ <;> simp [buildTableCells]
  | cons cell rest ih =>
    intro colIdx st
    have key : buildTableCells sm rowIdx colWidth st colIdx (cell :: rest)
        = ({ colAddr := colIdx, rowAddr := rowIdx,
             is_header := cell.attrs.is_header, width := colWidth,
             para := (makeParagraph st (if collectInlineRuns sm (sm (if cell.attrs.is_header then "table_header" else "table_body")).font cell = [] then [(" ", (sm (if cell.attrs.is_header then "table_header" else "table_body")).font)] else collectInlineRuns sm (sm (if cell.attrs.is_header then "table_header" else "table_body")).font cell)
          (if cell.attrs.align ≠ "" then { (sm (if cell.attrs.is_header then "table_header" else "table_body")).para with align := cell.attrs.align } else (sm (if cell.attrs.is_header then "table_header" else "table_body")).para)).1 }
           :: (buildTableCells sm rowIdx colWidth
                (makeParagraph st (if collectInlineRuns sm (sm (if cell.attrs.is_header then "table_header" else "table_body")).font cell = [] then [(" ", (sm (if cell.attrs.is_header then "table_header" else "table_body")).font)] else collectInlineRuns sm (sm (if cell.attrs.is_header then "table_header" else "table_body")).font cell)
          (if cell.attrs.align ≠ "" then { (sm (if cell.attrs.is_header then "table_header" else "table_body")).para with align := cell.attrs.align } else (sm (if cell.attrs.is_header then "table_header" else "table_body")).para)).2 (colIdx + 1) rest).1,
           (buildTableCells sm rowIdx colWidth
             (makeParagraph st (if collectInlineRuns sm (sm (if cell.attrs.is_header then "table_header" else "table_body")).font cell = [] then [(" ", (sm (if cell.attrs.is_header then "table_header" else "table_body")).font)] else collectInlineRuns sm (sm (if cell.attrs.is_header then "table_header" else "table_body")).font cell)
          (if cell.attrs.align ≠ "" then { (sm (if cell.attrs.is_header then "table_header" else "table_body")).para with align := cell.attrs.align } else (sm (if cell.attrs.is_header then "table_header" else "table_body")).para)).2 (colIdx + 1) rest).2) := rfl
    rw [key]
    obtain ⟨hext1, hok1, hprev1, _⟩ := makeParagraph_spec st (if collectInlineRuns sm (sm (if cell.attrs.is_header then "table_header" else "table_body")).font cell = [] then [(" ", (sm (if cell.attrs.is_header then "table_header" else "table_body")).font)] else collectInlineRuns sm (sm (if cell.attrs.is_header then "table_header" else "table_body")).font cell)
      (if cell.attrs.align ≠ "" then { (sm (if cell.attrs.is_header then "table_header" else "table_body")).para with align := cell.attrs.align } else (sm (if cell.attrs.is_header then "table_header" else "table_body")).para)
    obtain ⟨hext2, hok2, hprev2, hw2⟩ := ih (colIdx + 1) (makeParagraph st (if collectInlineRuns sm (sm (if cell.attrs.is_header then "table_header" else "table_body")).font cell = [] then [(" ", (sm (if cell.attrs.is_header then "table_header" else "table_body")).font)] else collectInlineRuns sm (sm (if cell.attrs.is_header then "table_header" else "table_body")).font cell)
          (if cell.attrs.align ≠ "" then { (sm (if cell.attrs.is_header then "table_header" else "table_body")).para with align := cell.attrs.align } else (sm (if cell.attrs.is_header then "table_header" else "table_body")).para)).2
    refine ⟨hext1.trans hext2, ?_, ?_, ?_⟩
    · intro cm hcm
      rcases List.mem_cons.mp hcm with rfl | hcm2
      · exact hok1.monoB hext2
      · exact hok2 cm hcm2
    · rw [hprev2, hprev1]
    · intro cm hcm
      rcases List.mem_cons.mp hcm with rfl | hcm2
      · rfl
      · exact hw2 cm hcm2

theorem buildTableRows_spec (sm : StyleMap) (colWidth : Int)
    (rows : List ASTNode) : ∀ (rowIdx : Nat) (st : RState),
    Registry.Ext st.reg (buildTableRows sm colWidth st rowIdx rows).2.reg
    ∧ (∀ row ∈ (buildTableRows sm colWidth st rowIdx rows).1, ∀ cm ∈ row,
        BaseParaOk (buildTableRows sm colWidth st rowIdx rows).2.reg cm.para)
    ∧ (buildTableRows sm colWidth st rowIdx rows).2.preview = st.preview
    ∧ (∀ row ∈ (buildTableRows sm colWidth st rowIdx rows).1, ∀ cm ∈ row,
        cm.width = colWidth) := by
  induction rows with
  | nil =>
    intro rowIdx st
    refine ⟨Registry.Ext.extRefl st.reg, ?_, rfl, ?_⟩ <;> simp [buildTableRows]
  | cons row rest ih =>
    intro rowIdx st
    have key : buildTableRows sm colWidth st rowIdx (row :: rest)
        = ((buildTableCells sm rowIdx colWidth st 0 row.children).1
           :: (buildTableRows sm colWidth
                (buildTableCells sm rowIdx colWidth st 0 row.children).2
                (rowIdx + 1) rest).1,
           (buildTableRows sm colWidth
             (buildTableCells sm rowIdx colWidth st 0 row.children).2
             (rowIdx + 1) rest).2) := rfl
    rw [key]
    obtain ⟨hext1, hok1, hprev1, hw1⟩ :=
      buildTableCells_spec sm rowIdx colWidth row.children 0 st
    obtain ⟨hext2, hok2, hprev2, hw2⟩ := ih (rowIdx + 1)
      (buildTableCells sm rowIdx colWidth st 0 row.children).2
    refine ⟨hext1.trans hext2, ?_, ?_, ?_⟩
    · intro rw hrw cm hcm
      rcases List.mem_cons.mp hrw with rfl | hrw2
      · exact (hok1 cm hcm).monoB hext2
      · exact hok2 rw hrw2 cm hcm
    · rw [hprev2, hprev1]
    · intro rw hrw cm hcm
      rcases List.mem_cons.mp hrw with rfl | hrw2
      · exact hw1 cm hcm
      · exact hw2 rw hrw2 cm hcm

theorem renderTableBody_spec (sm : StyleMap) (st : RState)
    (rows : List ASTNode) (numCols : Nat) :
    StepOk st (renderTableBody sm st rows numCols).2
      (renderTableBody sm st rows numCols).1
    ∧ (renderTableBody sm st rows numCols).2.preview
        = st.preview ++ ["[Table]"]
    ∧ ∃ p t, (renderTableBody sm st rows numCols).1 = [p]
        ∧ p.tbl = some t
        ∧ t.colCnt = numCols ∧ t.rowCnt = rows.length
        ∧ t.width = pageContentWidth
        ∧ t.colWidth = pageContentWidth / (numCols : Int)
        ∧ ∀ row ∈ t.rows, ∀ c ∈ row, c.width = t.colWidth := by
  have key : renderTableBody sm st rows numCols
      = ([{ id := (buildTableRows sm (pageContentWidth / (numCols : Int)) st 0 rows).2.paraId + 1,
            paraPr := (registerPara (buildTableRows sm (pageContentWidth / (numCols : Int)) st 0 rows).2.reg (sm "body").para).1,
            paraSpecG := (sm "body").para,
            runs := [{ charPr := (registerChar (registerPara (buildTableRows sm (pageContentWidth / (numCols : Int)) st 0 rows).2.reg (sm "body").para).2 (sm "body").font).1,
                       fontG := (sm "body").font, text := " " }],
            tbl := some { tblId := st.paraId + 1000, rowCnt := rows.length,
                          colCnt := numCols, width := pageContentWidth,
                          colWidth := pageContentWidth / (numCols : Int),
                          rows := (buildTableRows sm (pageContentWidth / (numCols : Int)) st 0 rows).1 } }],
         { paraId := (buildTableRows sm (pageContentWidth / (numCols : Int)) st 0 rows).2.paraId + 1,
           preview := (buildTableRows sm (pageContentWidth / (numCols : Int)) st 0 rows).2.preview ++ ["[Table]"],
           reg := (registerChar (registerPara (buildTableRows sm (pageContentWidth / (numCols : Int)) st 0 rows).2.reg (sm "body").para).2 (sm "body").font).2 }) := rfl
  rw [key]
  obtain ⟨hextB, hokB, hprevB, _⟩ :=
    buildTableRows_spec sm (pageContentWidth / (numCols : Int)) rows 0 st
  obtain ⟨hextP, hgetP⟩ := registerPara_spec (buildTableRows sm (pageContentWidth / (numCols : Int)) st 0 rows).2.reg (sm "body").para
  obtain ⟨hextC, hgetC⟩ := registerChar_spec (registerPara (buildTableRows sm (pageContentWidth / (numCols : Int)) st 0 rows).2.reg (sm "body").para).2 (sm "body").font
  refine ⟨⟨hextB.trans (hextP.trans hextC), ?_⟩, by rw [hprevB], ?_⟩
  · intro e he
    rcases List.mem_singleton.mp he with rfl
    refine ⟨getElem?_mono_of_ext_para hextC.2.2 hgetP, ?_, ?_⟩
    · intro r hr
      rcases List.mem_singleton.mp hr with rfl
      exact hgetC
    · intro t ht row hrow c hc
      cases ht
      exact (hokB row hrow c hc).monoB (hextP.trans hextC)
  · refine ⟨_, _, rfl, rfl, rfl, rfl, rfl, rfl, ?_⟩
    intro row hrow c hc
    exact (buildTableRows_spec sm (pageContentWidth / (numCols : Int))
      rows 0 st).2.2.2 row hrow c hc

theorem renderTable_ok (sm : StyleMap) (st : RState) (n : ASTNode) :
    StepOk st (renderTable sm st n).2 (renderTable sm st n).1 := by
  unfold renderTable
  cases hc : n.children with
  | nil => exact StepOk.stepRefl st [] (by simp)
  | cons firstRow rest =>
    exact (renderTableBody_spec sm st (firstRow :: rest)
      (if firstRow.children.length = 0 then 1
       else firstRow.children.length)).1
/-- Every render step of the mutually recursive renderer family only
grows the registry and produces fragments whose IDs resolve in the final
registry of that step (for `renderLIChildren`, this covers its nested
fragments). -/
theorem renderAll_ok (sm : StyleMap) :
    (∀ (st : RState) (n : ASTNode),
      StepOk st (renderNode sm st n).2 (renderNode sm st n).1)
    ∧ (∀ (style : StyleDef) (ordered : Bool) (counter : Int) (depth : Nat)
        (st : RState) (n : ASTNode),
        StepOk st (renderSingleListItem sm style ordered counter depth st n).2
          (renderSingleListItem sm style ordered counter depth st n).1)
    ∧ (∀ (style : StyleDef) (depth : Nat) (st : RState) (ns : List ASTNode),
        Registry.Ext st.reg (renderLIChildren sm style depth st ns).2.2.reg
        ∧ ∀ e ∈ (renderLIChildren sm style depth st ns).2.1,
            PElemOk (renderLIChildren sm style depth st ns).2.2.reg e)
    ∧ (∀ (style : StyleDef) (ordered : Bool) (counter : Int) (depth : Nat)
        (st : RState) (ns : List ASTNode),
        StepOk st (renderListItems sm style ordered counter depth st ns).2
          (renderListItems sm style ordered counter depth st ns).1)
    ∧ (∀ (style : StyleDef) (st : RState) (ns : List ASTNode),
        StepOk st (renderBQChildren sm style st ns).2
          (renderBQChildren sm style st ns).1)
    ∧ (∀ (st : RState) (ns : List ASTNode),
        StepOk st (renderNodes sm st ns).2 (renderNodes sm st ns).1) := by
  apply renderNode.mutual_induct sm
  case case1 =>
    intro st a c ih
    simp only [renderNode]
    exact ih
  case case2 =>
    intro st a c
    simp only [renderNode]
    exact renderHeading_ok sm st _
  case case3 =>
    intro st a c
    simp only [renderNode]
    exact renderParagraph_ok sm st _
  case case4 =>
    intro st a c
    simp only [renderNode]
    exact renderText_ok sm st _
  case case5 =>
    intro st a c
    simp only [renderNode]
    exact renderEmphBlock_ok sm st _ _
  case case6 =>
    intro st a c
    simp only [renderNode]
    exact renderEmphBlock_ok sm st _ _
  case case7 =>
    intro st a c
    simp only [renderNode]
    exact renderEmphBlock_ok sm st _ _
  case case8 =>
    intro st a c
    simp only [renderNode]
    exact renderInlineCodeBlock_ok sm st _
  case case9 =>
    intro st a c
    simp only [renderNode]
    exact renderCodeBlock_ok sm st _
  case case10 =>
    intro st a c style ps st2 heq ih
    simp only [renderNode]
    rw [heq]
    rw [heq] at ih
    split
    · exact StepOk.preview ih _
    · exact ih
  case case11 =>
    intro st a c
    simp only [renderNode]
    exact renderHorizontalRule_ok sm st
  case case12 =>
    intro st a c ih
    simp only [renderNode]
    exact ih
  case case13 =>
    intro st a c ih
    simp only [renderNode]
    exact ih
  case case14 =>
    intro st a c ih
    simp only [renderNode]
    exact ih
  case case15 =>
    intro st a c ih
    simp only [renderNode]
    exact ih
  case case16 =>
    intro st a c
    simp only [renderNode]
    exact renderTable_ok sm st _
  case case17 =>
    intro st a c
    simp only [renderNode]
    exact StepOk.stepRefl st [] (by simp)
  case case18 =>
    intro st a c
    simp only [renderNode]
    exact StepOk.stepRefl st [] (by simp)
  case case19 =>
    intro st a c
    simp only [renderNode]
    exact renderImageBlock_ok sm st _
  case case20 =>
    intro st a c
    simp only [renderNode]
    exact renderLinkBlock_ok sm st _
  case case21 =>
    intro st a c
    simp only [renderNode]
    exact renderFootnoteRefBlock_ok sm st _
  case case22 =>
    intro st a c
    simp only [renderNode]
    exact renderFootnoteDef_ok sm st _
  case case23 =>
    intro st a c
    simp only [renderNode]
    exact StepOk.stepRefl st [] (by simp)
  case case24 =>
    intro st a c
    simp only [renderNode]
    exact StepOk.stepRefl st [] (by simp)
  case case25 =>
    intro style ordered counter depth st a a1 a2 inlineRuns nested st1 hLI ihLI
    simp only [renderSingleListItem]
    rw [hLI]
    rw [hLI] at ihLI
    dsimp only at ihLI ⊢
    exact finishListItem_ok _ _ _ _ st st1 inlineRuns nested ihLI.1 ihLI.2
  case case26 =>
    intro style depth st
    simp only [renderLIChildren]
    exact ⟨Registry.Ext.extRefl st.reg, by simp⟩
  case case27 =>
    intro style depth st cty cattrs cchildren rest hty inlineRuns nested st1 hLI ih
    have ih' : Registry.Ext st.reg st1.reg ∧ ∀ e ∈ nested, PElemOk st1.reg e := by
      rw [hLI] at ih
      exact ih
    simp only [renderLIChildren]
    rw [if_pos hty, hLI]
    dsimp only
    exact ih'
  case case28 =>
    intro style depth st cty cattrs cchildren rest hty1 hty2 ordered ps st2 hIt inlineRuns nested st1 hLI ihIt ihRest
    have hIt' : renderListItems sm style (decide (cty = NodeType.ordered_list))
        (if cty = NodeType.ordered_list then cattrs.start else 0) (depth + 1)
        st cchildren = (ps, st2) := hIt
    have ihIt' : StepOk st st2 ps := by
      rw [hIt] at ihIt
      exact ihIt
    have ihRest' : Registry.Ext st2.reg st1.reg
        ∧ ∀ e ∈ nested, PElemOk st1.reg e := by
      rw [hLI] at ihRest
      exact ihRest
    simp only [renderLIChildren]
    rw [if_neg hty1, if_pos hty2, hIt']
    dsimp only
    rw [hLI]
    dsimp only
    refine ⟨ihIt'.1.trans ihRest'.1, ?_⟩
    intro e he
    rcases List.mem_append.mp he with he1 | he2
    · exact (ihIt'.2 e he1).monoP ihRest'.1
    · exact ihRest'.2 e he2
  case case29 =>
    intro style depth st cty cattrs cchildren rest hty1 hty2 ps st2 hNode inlineRuns nested st1 hLI ihNode ihRest
    have ihNode' : StepOk st st2 ps := by
      rw [hNode] at ihNode
      exact ihNode
    have ihRest' : Registry.Ext st2.reg st1.reg
        ∧ ∀ e ∈ nested, PElemOk st1.reg e := by
      rw [hLI] at ihRest
      exact ihRest
    simp only [renderLIChildren]
    rw [if_neg hty1, if_neg hty2, hNode]
    dsimp only
    rw [hLI]
    dsimp only
    refine ⟨ihNode'.1.trans ihRest'.1, ?_⟩
    intro e he
    rcases List.mem_append.mp he with he1 | he2
    · exact (ihNode'.2 e he1).monoP ihRest'.1
    · exact ihRest'.2 e he2
  case case30 =>
    intro style ordered counter depth st
    simp only [renderListItems]
    exact StepOk.stepRefl st [] (by simp)
  case case31 =>
    intro style ordered counter depth st item rest els1 st1 hItem cnt els2 st2 hRest ihItem ihRest
    have hRest' : renderListItems sm style ordered
        (if ordered = true then counter + 1 else counter) depth st1 rest
        = (els2, st2) := hRest
    have ihItem' : StepOk st st1 els1 := by
      rw [hItem] at ihItem
      exact ihItem
    have ihRest' : StepOk st1 st2 els2 := by
      rw [hRest] at ihRest
      exact ihRest
    simp only [renderListItems]
    rw [hItem]
    dsimp only
    rw [hRest']
    dsimp only
    exact StepOk.comp ihItem' ihRest'
  case case32 =>
    intro style st
    simp only [renderBQChildren]
    exact StepOk.stepRefl st [] (by simp)
  case case33 =>
    intro style st c rest hty runs hruns ih
    simp only [renderBQChildren]
    rw [if_pos hty]
    rw [if_pos hruns]
    exact ih
  case case34 =>
    intro style st c rest hty runs hruns p st1 hMK ps st2 hRest ih
    have ih' : StepOk st1 st2 ps := by
      rw [hRest] at ih
      exact ih
    have hmk2 := makeParagraph_spec st (collectInlineRuns sm style.font c)
      style.para
    rw [show makeParagraph st (collectInlineRuns sm style.font c) style.para
        = (p, st1) from hMK] at hmk2
    simp only [renderBQChildren]
    rw [if_pos hty, if_neg hruns,
      show makeParagraph st (collectInlineRuns sm style.font c) style.para
        = (p, st1) from hMK]
    dsimp only
    rw [hRest]
    dsimp only
    obtain ⟨mkExt, mkGood, _⟩ := hmk2
    refine ⟨mkExt.trans ih'.1, ?_⟩
    intro e he
    rcases List.mem_cons.mp he with rfl | he2
    · exact (mkGood.toPElemOk).monoP ih'.1
    · exact ih'.2 e he2
  case case35 =>
    intro style st c rest hty ps st2 hNode els st3 hRest ihNode ihRest
    have ihNode' : StepOk st st2 ps := by
      rw [hNode] at ihNode
      exact ihNode
    have ihRest' : StepOk st2 st3 els := by
      rw [hRest] at ihRest
      exact ihRest
    simp only [renderBQChildren]
    rw [if_neg hty, hNode]
    dsimp only
    rw [hRest]
    dsimp only
    exact StepOk.comp ihNode' ihRest'
  case case36 =>
    intro st
    simp only [renderNodes]
    exact StepOk.stepRefl st [] (by simp)
  case case37 =>
    intro st n ns els1 st1 hNode els2 st2 hRest ihNode ihRest
    have ihNode' : StepOk st st1 els1 := by
      rw [hNode] at ihNode
      exact ihNode
    have ihRest' : StepOk st1 st2 els2 := by
      rw [hRest] at ihRest
      exact ihRest
    simp only [renderNodes]
    rw [hNode]
    dsimp only
    rw [hRest]
    dsimp only
    exact StepOk.comp ihNode' ihRest'
/-! ## Packaging lemmas -/

theorem entryAt_enum {α : Type} {l : List α} {i : Nat} {x : α}
    (h : l[i]? = some x) : entryAt l.enum i x := by
  unfold entryAt
  rw [List.getElem?_enum]
  simp [h]

theorem ne_nil_of_getElem? {α : Type} {l : List α} {i : Nat} {x : α}
    (h : l[i]? = some x) : l ≠ [] := by
  intro hnil
  subst hnil
  simp at h

theorem registerChar_present {r : Registry} {f : FontSpec}
    (h : ∃ i : Nat, r.charList[i]? = some f) :
    (registerChar r f).2 = r
    ∧ r.charList[(registerChar r f).1]? = some f := by
  obtain ⟨i, hi⟩ := h
  have hmem := List.getElem?_mem hi
  have h2 := registerChar_of_mem hmem
  obtain ⟨_, hget⟩ := registerChar_spec r f
  rw [h2] at hget
  exact ⟨h2, hget⟩

theorem registerPara_present {r : Registry} {p : ParaSpec}
    (h : ∃ i : Nat, r.paraList[i]? = some p) :
    (registerPara r p).2 = r
    ∧ r.paraList[(registerPara r p).1]? = some p := by
  obtain ⟨i, hi⟩ := h
  have hmem := List.getElem?_mem hi
  have h2 := registerPara_of_mem hmem
  obtain ⟨_, hget⟩ := registerPara_spec r p
  rw [h2] at hget
  exact ⟨h2, hget⟩

/-- `_build_section_xml` in a state where the body style is already
registered (as `render` guarantees): the registry is returned unchanged
and every ID the section part references resolves, in that same registry,
to the spec it was registered for. -/
theorem buildSection_spec (sm : StyleMap) (st : RState) (body : List PElem)
    (hfont : ∃ i : Nat, st.reg.charList[i]? = some ((sm "body").font))
    (hpara : ∃ i : Nat, st.reg.paraList[i]? = some ((sm "body").para)) :
    (buildSection sm st body).2.reg = st.reg
    ∧ (buildSection sm st body).1.body = body
    ∧ (buildSection sm st body).1.firstParaSpecG = (sm "body").para
    ∧ (buildSection sm st body).1.firstFontG = (sm "body").font
    ∧ st.reg.paraList[(buildSection sm st body).1.firstParaPr]?
        = some ((sm "body").para)
    ∧ st.reg.charList[(buildSection sm st body).1.firstCharPr]?
        = some ((sm "body").font)
    ∧ ∀ fb, (buildSection sm st body).1.fallback = some fb →
        fb.paraSpecG = (sm "body").para ∧ fb.fontG = (sm "body").font
        ∧ st.reg.paraList[fb.paraPr]? = some ((sm "body").para)
        ∧ st.reg.charList[fb.charPr]? = some ((sm "body").font) := by
  obtain ⟨hceq, hcget⟩ := registerChar_present hfont
  obtain ⟨hpeq, hpget⟩ := registerPara_present hpara
  have hcpair : registerChar st.reg ((sm "body").font)
      = ((registerChar st.reg ((sm "body").font)).1, st.reg) :=
    Prod.ext rfl hceq
  have hppair : registerPara st.reg ((sm "body").para)
      = ((registerPara st.reg ((sm "body").para)).1, st.reg) :=
    Prod.ext rfl hpeq
  simp only [buildSection]
  rw [hcpair]
  dsimp only
  rw [hppair]
  dsimp only
  by_cases hb : body = []
  · rw [if_pos hb]
    rw [hppair]
    dsimp only
    rw [hcpair]
    dsimp only
    refine ⟨rfl, hb.symm, rfl, rfl, hpget, hcget, ?_⟩
    intro fb hfb
    cases hfb
    exact ⟨rfl, rfl, hpget, hcget⟩
  · rw [if_neg hb]
    refine ⟨rfl, rfl, rfl, rfl, hpget, hcget, ?_⟩
    intro fb hfb
    cases hfb

/-- Goodness transfer from the registry to the serialized header. -/
theorem PElemOk.toH {reg : Registry} {hm : HeaderModel} {e : PElem}
    (hc : hm.charEntries = reg.charList.enum)
    (hp : hm.paraEntries = reg.paraList.enum)
    (h : PElemOk reg e) : PElemOkH hm e := by
  obtain ⟨h1, h2, h3⟩ := h
  refine ⟨by rw [hp]; exact entryAt_enum h1, ?_, ?_⟩
  · intro r hr
    rw [hc]
    exact entryAt_enum (h2 r hr)
  · intro t ht row hrow c hcc
    obtain ⟨hb1, hb2⟩ := h3 t ht row hrow c hcc
    refine ⟨by rw [hp]; exact entryAt_enum hb1, ?_⟩
    intro r hr
    rw [hc]
    exact entryAt_enum (hb2 r hr)

/-- The header part of an archive produced by `packageHwpx` whose registry
has registered character and paragraph styles: its entries are exactly the
registry lists, enumerated. -/
theorem buildHeaderModel_of_ne_nil (sm : StyleMap) (reg : Registry)
    (hc : reg.charList ≠ []) (hp : reg.paraList ≠ []) :
    (buildHeaderModel sm reg).charEntries = reg.charList.enum
    ∧ (buildHeaderModel sm reg).paraEntries = reg.paraList.enum := by
  unfold buildHeaderModel
  rw [if_neg hc, if_neg hp]
  exact ⟨rfl, rfl⟩

/-! ## Claim C1: cross-reference integrity -/

/-- C1 -- Cross-reference integrity: in every archive generated by a
render, every numeric style ID (`paraPrIDRef`, `charPrIDRef`) emitted on a
paragraph or run in the content part (`Contents/section0.xml`) equals the
list index at which the corresponding paragraph/character specification is
serialized in the style-dictionary part (`Contents/header.xml`): the entry
at that index carries `id = index` and exactly the spec the ID was
registered for.  This covers the preamble paragraph, all body fragments
(runs and table-cell paragraphs included) and the fallback blank
paragraph. -/
theorem C1_cross_reference_integrity (sm : StyleMap)
    (children : List ASTNode) :
    ∃ hm secm,
      archiveHeader (renderCore sm children).1 = some hm
      ∧ archiveSection (renderCore sm children).1 = some secm
      ∧ SectionOkH hm secm := by
  obtain ⟨hext1, hget1⟩ :=
    registerChar_spec ({} : Registry) ((sm "body").font)
  obtain ⟨hext2, hget2⟩ := registerPara_spec
    (registerChar ({} : Registry) ((sm "body").font)).2 ((sm "body").para)
  obtain ⟨hext3, hgood⟩ := (renderAll_ok sm).2.2.2.2.2
    ({ paraId := 0, preview := [], reg := (registerPara (registerChar ({} : Registry) ((sm "body").font)).2 ((sm "body").para)).2 } : RState) children
  have hfont : ∃ i : Nat,
      (renderNodes sm ({ paraId := 0, preview := [], reg := (registerPara (registerChar ({} : Registry) ((sm "body").font)).2 ((sm "body").para)).2 } : RState) children).2.reg.charList[i]? = some ((sm "body").font) :=
    ⟨_, getElem?_mono_of_ext hext3.2.1
      (getElem?_mono_of_ext hext2.2.1 hget1)⟩
  have hpara : ∃ i : Nat,
      (renderNodes sm ({ paraId := 0, preview := [], reg := (registerPara (registerChar ({} : Registry) ((sm "body").font)).2 ((sm "body").para)).2 } : RState) children).2.reg.paraList[i]? = some ((sm "body").para) :=
    ⟨_, getElem?_mono_of_ext_para hext3.2.2 hget2⟩
  obtain ⟨hreg, hbody, hsp, hsf, hfp, hfc, hfb⟩ :=
    buildSection_spec sm (renderNodes sm ({ paraId := 0, preview := [], reg := (registerPara (registerChar ({} : Registry) ((sm "body").font)).2 ((sm "body").para)).2 } : RState) children).2 (renderNodes sm ({ paraId := 0, preview := [], reg := (registerPara (registerChar ({} : Registry) ((sm "body").font)).2 ((sm "body").para)).2 } : RState) children).1 hfont hpara
  obtain ⟨i1, hi1⟩ := hfont
  obtain ⟨i2, hi2⟩ := hpara
  obtain ⟨hhc, hhp⟩ := buildHeaderModel_of_ne_nil sm (renderNodes sm ({ paraId := 0, preview := [], reg := (registerPara (registerChar ({} : Registry) ((sm "body").font)).2 ((sm "body").para)).2 } : RState) children).2.reg
    (ne_nil_of_getElem? hi1) (ne_nil_of_getElem? hi2)
  refine ⟨buildHeaderModel sm (renderNodes sm ({ paraId := 0, preview := [], reg := (registerPara (registerChar ({} : Registry) ((sm "body").font)).2 ((sm "body").para)).2 } : RState) children).2.reg,
    (buildSection sm (renderNodes sm ({ paraId := 0, preview := [], reg := (registerPara (registerChar ({} : Registry) ((sm "body").font)).2 ((sm "body").para)).2 } : RState) children).2 (renderNodes sm ({ paraId := 0, preview := [], reg := (registerPara (registerChar ({} : Registry) ((sm "body").font)).2 ((sm "body").para)).2 } : RState) children).1).1, rfl, rfl, ?_, ?_, ?_, ?_⟩
  · rw [hsp, hhp]
    exact entryAt_enum hfp
  · rw [hsf, hhc]
    exact entryAt_enum hfc
  · intro e he
    rw [hbody] at he
    exact (hgood e he).toH hhc hhp
  · intro fb hf
    obtain ⟨hfb1, hfb2, hfb3, hfb4⟩ := hfb fb hf
    constructor
    · rw [hfb1, hhp]
      exact entryAt_enum hfb3
    · rw [hfb2, hhc]
      exact entryAt_enum hfb4

/-! ## Claims C2, C3, C4, C10 -/

/-- C3 -- Archive shape: every generated archive is the fixed
entry sequence with the mimetype entry first, stored uncompressed
(`ZIP_STORED`), with the fixed content `application/hwp+zip`; the
remaining parts follow in the exact fixed order and use deflate. -/
theorem C3_archive_shape (sm : StyleMap) (children : List ASTNode) :
    (renderCore sm children).1.map (fun e => e.name)
      = ["mimetype", "version.xml", "META-INF/container.xml",
         "META-INF/manifest.xml", "META-INF/container.rdf", "settings.xml",
         "Contents/content.hpf", "Contents/header.xml",
         "Contents/section0.xml", "Preview/PrvText.txt"]
    ∧ (renderCore sm children).1.head?
        = some ⟨"mimetype", true, .text "application/hwp+zip"⟩
    ∧ (renderCore sm children).1.tail.map (fun e => e.stored)
        = [false, false, false, false, false, false, false, false, false] :=
  ⟨rfl, rfl, rfl⟩

theorem registerFontName_of_mem {r : Registry} {nm : String}
    (h : nm ∈ r.fonts) : (registerFontName r nm).2 = r := by
  have : r.fonts.findIdx? (· = nm) = some (r.fonts.findIdx (· = nm)) :=
    List.findIdx?_eq_some_of_exists ⟨nm, h, by simp⟩
  unfold registerFontName
  rw [this]

theorem registerFontName_of_not_mem {r : Registry} {nm : String}
    (h : nm ∉ r.fonts) :
    (registerFontName r nm).1 = r.fonts.length
    ∧ (registerFontName r nm).2.fonts = r.fonts ++ [nm] := by
  have hnone : r.fonts.findIdx? (· = nm) = none := by
    rw [List.findIdx?_eq_none_iff]
    intro x hx
    simp only [decide_eq_false_iff_not]
    intro hxn
    exact h (hxn ▸ hx)
  unfold registerFontName
  rw [hnone]
  exact ⟨rfl, rfl⟩

theorem findIdxQ_append_singleton {α : Type} [DecidableEq α]
    {l : List α} {x : α} (h : x ∉ l) :
    (l ++ [x]).findIdx? (· = x) = some l.length := by
  induction l with
  | nil => simp [List.findIdx?_cons]
  | cons a as ih =>
    have hax : ¬(a = x) := fun e => h (e ▸ List.mem_cons_self a as)
    have has : x ∉ as := fun hm => h (List.mem_cons_of_mem a hm)
    simp [List.findIdx?_cons, hax, ih has]

theorem registerChar_idem (r : Registry) (f : FontSpec) :
    registerChar (registerChar r f).2 f
      = ((registerChar r f).1, (registerChar r f).2) := by
  by_cases h : f ∈ r.charList
  · have h2 := registerChar_of_mem h
    rw [h2]
    exact Prod.ext rfl h2
  · obtain ⟨hid, hlist, _⟩ := registerChar_of_not_mem h
    have hfind : ((registerChar r f).2).charList.findIdx? (· = f)
        = some r.charList.length := by
      rw [hlist]
      exact findIdxQ_append_singleton h
    rw [hid.symm] at hfind
    generalize hR : (registerChar r f).2 = R at hfind ⊢
    generalize hI : (registerChar r f).1 = i at hfind ⊢
    unfold registerChar
    rw [hfind]

theorem registerPara_idem (r : Registry) (p : ParaSpec) :
    registerPara (registerPara r p).2 p
      = ((registerPara r p).1, (registerPara r p).2) := by
  by_cases h : p ∈ r.paraList
  · have h2 := registerPara_of_mem h
    rw [h2]
    exact Prod.ext rfl h2
  · obtain ⟨hid, hlist⟩ := registerPara_of_not_mem h
    have hfind : ((registerPara r p).2).paraList.findIdx? (· = p)
        = some r.paraList.length := by
      rw [hlist]
      exact findIdxQ_append_singleton h
    rw [hid.symm] at hfind
    generalize hR : (registerPara r p).2 = R at hfind ⊢
    generalize hI : (registerPara r p).1 = i at hfind ⊢
    unfold registerPara
    rw [hfind]

theorem registerFontName_idem (r : Registry) (nm : String) :
    registerFontName (registerFontName r nm).2 nm
      = ((registerFontName r nm).1, (registerFontName r nm).2) := by
  by_cases h : nm ∈ r.fonts
  · have h2 := registerFontName_of_mem h
    rw [h2]
    exact Prod.ext rfl h2
  · obtain ⟨hid, hlist⟩ := registerFontName_of_not_mem h
    have hfind : ((registerFontName r nm).2).fonts.findIdx? (· = nm)
        = some r.fonts.length := by
      rw [hlist]
      exact findIdxQ_append_singleton h
    rw [hid.symm] at hfind
    generalize hR : (registerFontName r nm).2 = R at hfind ⊢
    generalize hI : (registerFontName r nm).1 = i at hfind ⊢
    unfold registerFontName
    rw [hfind]

/-- C2 -- Style registry idempotence and ID density: each register
operation returns an ID that resolves, in the resulting registry, to the
registered entry at exactly that list position (so IDs are dense from 0 in
first-seen order); registering again is the identity (same ID, unchanged
registry); an entry equal to an existing one (full field tuple for specs,
name for fonts) returns the existing ID without change; a fresh entry is
appended and assigned the next integer, and a fresh character style also
registers its two font names. -/
theorem C2_style_registry (r : Registry) (f : FontSpec) (p : ParaSpec)
    (nm : String) :
    ((registerChar r f).2.charList[(registerChar r f).1]? = some f)
    ∧ (registerChar (registerChar r f).2 f
        = ((registerChar r f).1, (registerChar r f).2))
    ∧ (f ∈ r.charList → (registerChar r f).2 = r)
    ∧ (f ∉ r.charList →
        (registerChar r f).1 = r.charList.length
        ∧ (registerChar r f).2.charList = r.charList ++ [f]
        ∧ f.hangul ∈ (registerChar r f).2.fonts
        ∧ f.latin ∈ (registerChar r f).2.fonts)
    ∧ ((registerPara r p).2.paraList[(registerPara r p).1]? = some p)
    ∧ (registerPara (registerPara r p).2 p
        = ((registerPara r p).1, (registerPara r p).2))
    ∧ (p ∈ r.paraList → (registerPara r p).2 = r)
    ∧ (p ∉ r.paraList →
        (registerPara r p).1 = r.paraList.length
        ∧ (registerPara r p).2.paraList = r.paraList ++ [p])
    ∧ ((registerFontName r nm).2.fonts[(registerFontName r nm).1]? = some nm)
    ∧ (registerFontName (registerFontName r nm).2 nm
        = ((registerFontName r nm).1, (registerFontName r nm).2))
    ∧ (nm ∈ r.fonts → (registerFontName r nm).2 = r)
    ∧ (nm ∉ r.fonts →
        (registerFontName r nm).1 = r.fonts.length
        ∧ (registerFontName r nm).2.fonts = r.fonts ++ [nm]) := by
  refine ⟨(registerChar_spec r f).2, registerChar_idem r f,
    fun h => registerChar_of_mem h, fun h => registerChar_of_not_mem h,
    (registerPara_spec r p).2, registerPara_idem r p,
    fun h => registerPara_of_mem h, fun h => registerPara_of_not_mem h,
    (registerFontName_spec r nm).2.2.2, registerFontName_idem r nm,
    fun h => registerFontName_of_mem h,
    fun h => registerFontName_of_not_mem h⟩

/-- Witness for C2 at the empty registry: the default font spec is fresh,
so registering it assigns ID 0, appends it, and registers its two font
names. -/
theorem C2_style_registry_witness :
    (({} : FontSpec) ∉ ({} : Registry).charList)
    ∧ (registerChar ({} : Registry) ({} : FontSpec)).1 = 0
    ∧ (registerChar ({} : Registry) ({} : FontSpec)).2.charList
        = [({} : FontSpec)]
    ∧ ({} : FontSpec).hangul ∈ (registerChar ({} : Registry) ({} : FontSpec)).2.fonts
    ∧ ({} : FontSpec).latin ∈ (registerChar ({} : Registry) ({} : FontSpec)).2.fonts := by
  have hnm : ({} : FontSpec) ∉ ({} : Registry).charList := by simp
  obtain ⟨h1, h2, h3, h4⟩ :=
    (C2_style_registry ({} : Registry) ({} : FontSpec) ({} : ParaSpec)
      "x").2.2.2.1 hnm
  exact ⟨hnm, h1, by simpa using h2, h3, h4⟩

/-- C10 counterexample: a keyword override naming the read-only property
(`size_hwp` on `FontSpec`, `indent_hwp` on `ParaSpec`) is not silently
ignored -- `hasattr` is true, so `derive` calls `setattr` on a property
without a setter and an `AttributeError` is raised. -/
theorem C10_counterexample :
    FontSpec.deriveKw {} [.size_hwp 0]
      = .error "AttributeError: property has no setter"
    ∧ ParaSpec.deriveKw {} [.hwp_prop "indent_hwp" 0]
      = .error "AttributeError: property has no setter" := ⟨rfl, rfl⟩

/-- C10 (amended) -- Derive semantics: `derive` with no overrides returns
a value equal to the original (hence equal under the registry's dedup key,
which is full field equality); an override naming no attribute at all is
silently ignored; an override matching a dataclass field is applied and
leaves every other field unchanged (shown for `size_pt`; the original
value is never mutated, matching the deep copy); an override naming a
read-only `@property` raises `AttributeError` instead of being ignored. -/
theorem C10_derive_amended (f : FontSpec) (p : ParaSpec) (nm : String)
    (v : Rat) (ks : List FontKw) (pks : List ParaKw) :
    (FontSpec.deriveKw f [] = .ok f)
    ∧ (ParaSpec.deriveKw p [] = .ok p)
    ∧ (FontSpec.deriveKw f (.absent nm :: ks) = FontSpec.deriveKw f ks)
    ∧ (ParaSpec.deriveKw p (.absent nm :: pks) = ParaSpec.deriveKw p pks)
    ∧ (FontSpec.deriveKw f [.size_pt v] = .ok { f with size_pt := v })
    ∧ ({ f with size_pt := v }.size_pt = v
       ∧ { f with size_pt := v }.hangul = f.hangul
       ∧ { f with size_pt := v }.latin = f.latin
       ∧ { f with size_pt := v }.bold = f.bold
       ∧ { f with size_pt := v }.italic = f.italic
       ∧ { f with size_pt := v }.underline = f.underline
       ∧ { f with size_pt := v }.strikethrough = f.strikethrough
       ∧ { f with size_pt := v }.color = f.color
       ∧ { f with size_pt := v }.background = f.background)
    ∧ (ParaSpec.deriveKw p [.left_margin_pt v]
        = .ok { p with left_margin_pt := v })
    ∧ ({ p with left_margin_pt := v }.align = p.align
       ∧ { p with left_margin_pt := v }.indent_pt = p.indent_pt
       ∧ { p with left_margin_pt := v }.right_margin_pt = p.right_margin_pt
       ∧ { p with left_margin_pt := v }.line_spacing_percent
           = p.line_spacing_percent
       ∧ { p with left_margin_pt := v }.space_before_pt = p.space_before_pt
       ∧ { p with left_margin_pt := v }.space_after_pt = p.space_after_pt)
    ∧ (FontSpec.deriveKw f (.size_hwp 0 :: ks)
        = .error "AttributeError: property has no setter")
    ∧ (ParaSpec.deriveKw p (.hwp_prop nm 0 :: pks)
        = .error "AttributeError: property has no setter") := by
  refine ⟨rfl, rfl, rfl, rfl, rfl, ⟨rfl, rfl, rfl, rfl, rfl, rfl, rfl, rfl,
    rfl⟩, rfl, ⟨rfl, rfl, rfl, rfl, rfl, rfl⟩, rfl, rfl⟩
/-! ## Claim C9: code-block rendering -/

theorem runTexts_of_makeParagraph (st : RState)
    (runs : List (String × FontSpec)) (spec : ParaSpec) :
    (makeParagraph st runs spec).1.runs.map
        (fun e => (e.text, e.fontG))
      = runs.filter (fun tf => tf.1 ≠ "") :=
  (makeParagraph_spec st runs spec).2.2.2.2.2.2

theorem codeBlockLines_map (style : StyleDef) (lines : List String) :
    ∀ st : RState,
    (codeBlockLines style st lines).1.map
        (fun e => (e.runs.map (fun r => (r.text, r.fontG)), e.paraSpecG))
      = lines.map
          (fun l => ([(if l = "" then " " else l, style.font)], style.para))
    ∧ (codeBlockLines style st lines).2.preview = st.preview := by
  induction lines with
  | nil => intro st; exact ⟨rfl, rfl⟩
  | cons line rest ih =>
    intro st
    have key : codeBlockLines style st (line :: rest)
        = ((makeParagraph st [(if line = "" then " " else line, style.font)]
             style.para).1.toPElem
           :: (codeBlockLines style
                (makeParagraph st [(if line = "" then " " else line, style.font)]
                  style.para).2 rest).1,
           (codeBlockLines style
             (makeParagraph st [(if line = "" then " " else line, style.font)]
               style.para).2 rest).2) := rfl
    rw [key]
    obtain ⟨ih1, ih2⟩ := ih (makeParagraph st
      [(if line = "" then " " else line, style.font)] style.para).2
    constructor
    · simp only [List.map_cons, ih1]
      have hne : (if line = "" then " " else line) ≠ "" := by
        by_cases hl : line = "" <;> simp [hl]
      have hruns := runTexts_of_makeParagraph st
        [(if line = "" then " " else line, style.font)] style.para
      rw [List.filter_cons] at hruns
      simp only [hne, decide_eq_true_eq] at hruns
      have hspec := (makeParagraph_spec st
        [(if line = "" then " " else line, style.font)] style.para).2.2.2.2.2.1
      simp only [BasePara.toPElem]
      rw [show ((makeParagraph st
          [(if line = "" then " " else line, style.font)] style.para).1.runs.map
            (fun r => (r.text, r.fontG)))
          = [(if line = "" then " " else line, style.font)] from by
        rw [hruns]; simp [hne]]
      rw [hspec]
    · rw [ih2, (makeParagraph_spec st
        [(if line = "" then " " else line, style.font)] style.para).2.2.1]

/-- C9 -- Code-block rendering: a code block produces exactly one
paragraph per source line (split on newlines, with the trailing empty line
from a final newline dropped), each holding a single run whose text is the
line (or a single space for an empty line) in the `code_block` font, with
the `code_block` paragraph spec; and exactly one preview entry is
appended, `"[Code: "` followed by the first 200 characters of the block
with newlines replaced by spaces, then `"]"`. -/
theorem C9_code_block_rendering (sm : StyleMap) (st : RState)
    (a : NodeAttrs) (cs : List ASTNode) :
    (renderNode sm st (.mk .code_block a cs)).1.map
        (fun e => (e.runs.map (fun r => (r.text, r.fontG)), e.paraSpecG))
      = (if (a.text.splitOn "\n").getLast? = some ""
         then (a.text.splitOn "\n").dropLast
         else a.text.splitOn "\n").map
          (fun l => ([(if l = "" then " " else l, (sm "code_block").font)],
                     (sm "code_block").para))
    ∧ (renderNode sm st (.mk .code_block a cs)).2.preview
      = st.preview
        ++ ["[Code: " ++ (a.text.take 200).replace "\n" " " ++ "]"] := by
  simp only [renderNode]
  have key : renderCodeBlock sm st (.mk .code_block a cs)
      = ((codeBlockLines (sm "code_block") st
           (if (a.text.splitOn "\n").getLast? = some ""
            then (a.text.splitOn "\n").dropLast
            else a.text.splitOn "\n")).1,
         { (codeBlockLines (sm "code_block") st
             (if (a.text.splitOn "\n").getLast? = some ""
              then (a.text.splitOn "\n").dropLast
              else a.text.splitOn "\n")).2 with
           preview := (codeBlockLines (sm "code_block") st
             (if (a.text.splitOn "\n").getLast? = some ""
              then (a.text.splitOn "\n").dropLast
              else a.text.splitOn "\n")).2.preview
             ++ ["[Code: " ++ (a.text.take 200).replace "\n" " " ++ "]"] }) :=
    rfl
  rw [key]
  obtain ⟨h1, h2⟩ := codeBlockLines_map (sm "code_block")
    (if (a.text.splitOn "\n").getLast? = some ""
     then (a.text.splitOn "\n").dropLast
     else a.text.splitOn "\n") st
  exact ⟨h1, by rw [h2]⟩
/-! ## Claims C7 and C8: tables -/

/-- C7 counterexample: rendering a table with zero rows returns before
the preview append, so no `"[Table]"` preview line is produced (the claim
says one is appended regardless of size, including zero rows). -/
theorem C7_counterexample :
    renderNode sm0 st00 cTableEmpty = ([], st00)
    ∧ (renderNode sm0 st00 cTableEmpty).2.preview = [] := by
  constructor
  · simp only [cTableEmpty, renderNode]
    rfl
  · simp only [cTableEmpty, renderNode]
    rfl

/-- C7 (amended) -- Table preview line: exactly one `"[Table]"` preview
line is appended for every table with at least one row, regardless of the
table's size; a table with zero rows produces no fragment and appends no
preview line. -/
theorem C7_table_preview_amended (sm : StyleMap) (st : RState)
    (a : NodeAttrs) (cs : List ASTNode) :
    (renderNode sm st (.mk .table a cs)).2.preview
      = st.preview ++ (match cs with | [] => [] | _ :: _ => ["[Table]"]) := by
  simp only [renderNode]
  match cs with
  | [] =>
    simp [renderTable, ASTNode.children]
  | r :: rest =>
    have key : renderTable sm st (.mk .table a (r :: rest))
        = renderTableBody sm st (r :: rest)
            (if r.children.length = 0 then 1 else r.children.length) := rfl
    rw [key]
    exact (renderTableBody_spec sm st (r :: rest)
      (if r.children.length = 0 then 1 else r.children.length)).2.1

/-- C8 counterexample: a table whose single row has zero cells is
rendered with `colCnt = 1` (the source substitutes 1), not 0 = the number
of cells in the first row as the claim states. -/
theorem C8_counterexample :
    (cTableOneEmptyRow.children.headD cTableOneEmptyRow).children.length = 0
    ∧ tblColCnt (renderNode sm0 st00 cTableOneEmptyRow).1 = some 1 := by
  constructor
  · rfl
  · simp only [cTableOneEmptyRow, renderNode]
    rfl

/-- C8 (amended) -- Table geometry: for every table with at least one
row, the column count used is the number of cells in the first row when
that is nonzero, and 1 when the first row has no cells; each cell's width
is the usable page width (59528 - 8504 - 8504 = 42520) integer-divided by
the column count, with the remainder truncated and not redistributed. -/
theorem C8_table_geometry_amended (sm : StyleMap) (st : RState)
    (a : NodeAttrs) (r : ASTNode) (rest : List ASTNode) :
    ∃ p t, (renderNode sm st (.mk .table a (r :: rest))).1 = [p]
      ∧ p.tbl = some t
      ∧ t.colCnt
          = (if r.children.length = 0 then 1 else r.children.length)
      ∧ t.rowCnt = (r :: rest).length
      ∧ t.width = pageContentWidth
      ∧ pageContentWidth = 42520
      ∧ t.colWidth = pageContentWidth / (t.colCnt : Int)
      ∧ ∀ row ∈ t.rows, ∀ c ∈ row, c.width = t.colWidth := by
  simp only [renderNode]
  have key : renderTable sm st (.mk .table a (r :: rest))
      = renderTableBody sm st (r :: rest)
          (if r.children.length = 0 then 1 else r.children.length) := rfl
  rw [key]
  obtain ⟨-, -, p, t, h1, h2, hcol, hrow, hw, hcw, hcells⟩ :=
    renderTableBody_spec sm st (r :: rest)
      (if r.children.length = 0 then 1 else r.children.length)
  exact ⟨p, t, h1, h2, hcol, hrow, hw, by decide,
    by rw [hcw, hcol], hcells⟩
/-! ## Claim C6: image placeholder paths -/

theorem image_placeholder_ne_empty (x : String) :
    ("[Image: " ++ x ++ "]") ≠ "" := by
  intro h
  have hlen := congrArg String.length h
  have h8 : ("[Image: " : String).length = 8 := rfl
  have h1 : ("]" : String).length = 1 := rfl
  simp only [String.length_append, h8, h1] at hlen
  simp at hlen

/-- C6 counterexample: for an image node with empty alt and title and URL
`"u"`, the block-level path falls back to the URL and renders
`"[Image: u]"`, while the inline run-collection path (which has no URL
fallback) renders `"[Image: image]"` -- the two texts differ. -/
theorem C6_counterexample :
    ((renderNode sm0 st00 cImageUrlOnly).1.map
        (fun e => e.runs.map (fun r => r.text)))
      = [["[Image: u]"]]
    ∧ ((collectInlineChild sm0 ({} : FontSpec) cImageUrlOnly).map
        (fun tf => tf.1))
      = ["[Image: image]"]
    ∧ ("[Image: u]" : String) ≠ "[Image: image]" := by
  refine ⟨?_, ?_, by decide⟩
  · simp only [cImageUrlOnly, renderNode]
    rfl
  · simp [cImageUrlOnly, collectInlineChild, pyOr, ASTNode.ty, ASTNode.attrs]

/-- C6 (amended) -- Image placeholder paths: the block-level path renders
the single run `"[Image: <alt-or-title-or-url-or-image>]"`, while the
inline path renders `"[Image: <alt-or-title-or-image>]"` (no URL
fallback).  The two paths produce identical text whenever alt or title is
nonempty; when both are empty and a URL is present, the block path shows
the URL and the inline path shows the literal `"image"`. -/
theorem C6_image_placeholder_amended (sm : StyleMap) (st : RState)
    (base : FontSpec) (a t u : String) :
    ((renderNode sm st (.mk .image { alt := a, title := t, url := u } [])).1.map
        (fun e => e.runs.map (fun r => r.text)))
      = [["[Image: " ++ pyOr a (pyOr t (pyOr u "image")) ++ "]"]]
    ∧ ((collectInlineChild sm base
          (.mk .image { alt := a, title := t, url := u } [])).map
        (fun tf => tf.1))
      = ["[Image: " ++ pyOr a (pyOr t "image") ++ "]"]
    ∧ ((a ≠ "" ∨ t ≠ "") →
        ("[Image: " ++ pyOr a (pyOr t (pyOr u "image")) ++ "]" : String)
          = "[Image: " ++ pyOr a (pyOr t "image") ++ "]") := by
  refine ⟨?_, ?_, ?_⟩
  · simp only [renderNode]
    have key : renderImageBlock sm st
        (.mk .image { alt := a, title := t, url := u } [])
        = ([(makeParagraph st
             [("[Image: " ++ pyOr a (pyOr t (pyOr u "image")) ++ "]",
               { (sm "body").font with italic := true, color := "#666666" })]
             (sm "body").para).1.toPElem],
           { (makeParagraph st
               [("[Image: " ++ pyOr a (pyOr t (pyOr u "image")) ++ "]",
                 { (sm "body").font with italic := true, color := "#666666" })]
               (sm "body").para).2 with
             preview := (makeParagraph st
               [("[Image: " ++ pyOr a (pyOr t (pyOr u "image")) ++ "]",
                 { (sm "body").font with italic := true, color := "#666666" })]
               (sm "body").para).2.preview
               ++ ["[Image: " ++ pyOr a (pyOr t (pyOr u "image")) ++ "]"] }) :=
      rfl
    rw [key]
    have hruns := runTexts_of_makeParagraph st
      [("[Image: " ++ pyOr a (pyOr t (pyOr u "image")) ++ "]",
        { (sm "body").font with italic := true, color := "#666666" })]
      (sm "body").para
    rw [List.filter_cons] at hruns
    simp only [image_placeholder_ne_empty, decide_eq_true_eq,
      List.filter_nil, if_pos] at hruns
    simp only [List.map_cons, List.map_nil, BasePara.toPElem]
    have := congrArg (List.map Prod.fst) hruns
    simp only [List.map_map, List.map_cons, List.map_nil] at this
    rw [show ((makeParagraph st
        [("[Image: " ++ pyOr a (pyOr t (pyOr u "image")) ++ "]",
          { (sm "body").font with italic := true, color := "#666666" })]
        (sm "body").para).1.runs.map (fun r => r.text))
      = [("[Image: " ++ pyOr a (pyOr t (pyOr u "image")) ++ "]")] from this]
  · simp [collectInlineChild, ASTNode.ty, ASTNode.attrs]
  · intro h
    rcases h with ha | ht
    · simp [pyOr, ha]
    · by_cases ha : a = "" <;> simp [pyOr, ha, ht]
/-- Witness for the amended C6 at alt = "a", title = "", url = "u": the
two placeholder texts coincide because alt is nonempty. -/
theorem C6_image_placeholder_amended_witness :
    (("a" : String) ≠ "" ∨ ("" : String) ≠ "")
    ∧ (("[Image: " ++ pyOr "a" (pyOr "" (pyOr "u" "image")) ++ "]" : String)
        = "[Image: " ++ pyOr "a" (pyOr "" "image") ++ "]") :=
  ⟨Or.inl (by decide),
   (C6_image_placeholder_amended sm0 st00 {} "a" "" "u").2.2
     (Or.inl (by decide))⟩

/-! ## Claim C5: empty-run block elision -/

theorem makeParagraph_single_run_texts (st : RState) (t : String)
    (f : FontSpec) (spec : ParaSpec) (ht : t ≠ "") :
    (makeParagraph st [(t, f)] spec).1.runs.map (fun r => r.text) = [t] := by
  have hruns := runTexts_of_makeParagraph st [(t, f)] spec
  have h2 := congrArg (List.map Prod.fst) hruns
  simp only [List.map_map] at h2
  simpa [ht] using h2



/-- C5 counterexample: a heading node with no text and no children has an
empty collected run list, yet `_render_heading` still emits one (runless)
paragraph fragment -- the claim says such a block is skipped and produces
no fragment. -/
theorem C5_counterexample :
    collectInlineRuns sm0 (sm0 "heading_1").font cHeadingEmpty = []
    ∧ (renderNode sm0 st00 cHeadingEmpty).1.length = 1 := by
  constructor
  · simp [cHeadingEmpty, collectInlineRuns]
  · simp only [cHeadingEmpty, renderNode]
    rfl

/-- C5 (amended) -- Empty-run block behaviour per block kind: a paragraph,
a blockquote paragraph child, or a standalone text node with an empty run
list (resp. empty text) is skipped and produces no fragment; a heading
always emits exactly one paragraph, even with an empty run list; a table
cell with an empty run list substitutes a single-space run instead of
being skipped; list items and footnote definitions always emit at least
one paragraph (with a synthetic stripped-prefix or label-only run when
empty); a horizontal rule always emits exactly one paragraph. -/
theorem C5_block_elision_amended (sm : StyleMap) (st : RState)
    (a : NodeAttrs) (cs : List ASTNode) (style : StyleDef) (n : ASTNode)
    (cell : ASTNode) (rowIdx colIdx : Nat) (w : Int) :
    ((renderNode sm st (.mk .heading a cs)).1.length = 1)
    ∧ (collectInlineRuns sm (sm "body").font (.mk .paragraph a cs) = [] →
        renderNode sm st (.mk .paragraph a cs) = ([], st))
    ∧ (collectInlineRuns sm (sm "body").font (.mk .paragraph a cs) ≠ [] →
        (renderNode sm st (.mk .paragraph a cs)).1.length = 1)
    ∧ (a.text = "" → renderNode sm st (.mk .text a cs) = ([], st))
    ∧ (a.text ≠ "" → (renderNode sm st (.mk .text a cs)).1.length = 1)
    ∧ (n.ty = .paragraph → collectInlineRuns sm style.font n = [] →
        renderBQChildren sm style st [n] = ([], st))
    ∧ ((renderNode sm st (.mk .horizontal_rule a cs)).1.length = 1)
    ∧ (1 ≤ (renderNode sm st (.mk .list_item a cs)).1.length)
    ∧ (1 ≤ (renderNode sm st (.mk .footnote_def a cs)).1.length)
    ∧ (collectInlineRuns sm
          (sm (if cell.attrs.is_header then "table_header"
               else "table_body")).font cell = [] →
        (buildTableCells sm rowIdx w st colIdx [cell]).1.map
            (fun cm => cm.para.runs.map (fun r => r.text))
          = [[" "]]) := by
  refine ⟨?_, ?_, ?_, ?_, ?_, ?_, ?_, ?_, ?_, ?_⟩
  · simp only [renderNode]
    rfl
  · intro h
    simp only [renderNode]
    simp [renderParagraph, h]
  · intro h
    simp only [renderNode]
    have heq : renderParagraph sm st (.mk .paragraph a cs)
        = ([(makeParagraph st
              (collectInlineRuns sm (sm "body").font (.mk .paragraph a cs))
              (sm "body").para).1.toPElem],
           (renderParagraph sm st (.mk .paragraph a cs)).2) := by
      unfold renderParagraph
      rw [if_neg h]
    rw [heq]
    rfl
  · intro h
    simp only [renderNode]
    simp [renderText, ASTNode.attrs, h]
  · intro h
    simp only [renderNode]
    simp [renderText, ASTNode.attrs, h]
  · intro hty h
    simp only [renderBQChildren]
    rw [if_pos hty, if_pos h]
  · simp only [renderNode]
    rfl
  · simp only [renderNode, renderSingleListItem]
    have key : ∀ (sty : StyleDef) (ps : ParaSpec) (pfx pl : String)
        (st1 : RState) (inl : List (String × FontSpec))
        (nested : List PElem),
        1 ≤ (finishListItem sty ps pfx pl st1 inl nested).1.length := by
      intro sty ps pfx pl st1 inl nested
      have hx : (finishListItem sty ps pfx pl st1 inl nested).1
          = (makeParagraph st1
              (match inl with
               | (t, f) :: more => (pfx ++ t, f) :: more
               | [] => [(pfx.trimRight, sty.font)]) ps).1.toPElem
            :: nested := rfl
      rw [hx]
      simp
    apply key
  · simp only [renderNode, renderFootnoteDef]
    split
    · simp
    · rename_i hne
      have hpos := List.length_pos.mpr hne
      simp only [List.length_append]
      omega
  · intro h
    simp only [buildTableCells, h, reduceIte, List.map_cons]
    rw [makeParagraph_single_run_texts st " " _ _ (by decide)]
    simp [buildTableCells]

/-- Witness for the amended C5: a paragraph with no content is skipped; a
nonempty text node yields one fragment; an empty-content blockquote
paragraph child contributes nothing; an empty table cell gets a
single-space run. -/
theorem C5_block_elision_amended_witness :
    (renderNode sm0 st00 (.mk .paragraph {} []) = ([], st00))
    ∧ ((renderNode sm0 st00 (.mk .text { text := "x" } [])).1.length = 1)
    ∧ (renderBQChildren sm0 defStyle st00 [.mk .paragraph {} []] = ([], st00))
    ∧ ((buildTableCells sm0 0 42520 st00 0 [.mk .table_cell {} []]).1.map
        (fun cm => cm.para.runs.map (fun r => r.text)) = [[" "]]) := by
  have h := C5_block_elision_amended sm0 st00 {} [] defStyle
    (.mk .paragraph {} []) (.mk .table_cell {} []) 0 0 42520
  refine ⟨h.2.1 ?_, ?_, h.2.2.2.2.2.1 rfl ?_, h.2.2.2.2.2.2.2.2.2 ?_⟩
  · simp [collectInlineRuns]
  · exact (C5_block_elision_amended sm0 st00 { text := "x" } [] defStyle
      (.mk .paragraph {} []) (.mk .table_cell {} []) 0 0 42520).2.2.2.2.1
      (by decide)
  · simp [collectInlineRuns]
  · simp [collectInlineRuns]
end Md2Hwpx
